import Mathlib

/-!
Verification of the stub-based lazy model loading subsystem of
ComfyUI-VastAI (`lazy_model_loader.py`).

The embedding models the container's local filesystem as a partial map
from path strings to file contents.  Python file operations used by the
source (`os.path.exists`, `os.path.getsize`, `open(..., 'wb')`,
`open(..., 'w').write`, `os.remove`) become reads and updates of this map.
The remote content store (Google Drive accessed through `gdown`) is an
abstract function from content handles (file ids) to optional contents:
`some c` means a fetch succeeds and atomically writes `c`, `none` means the
fetch raises, leaving the destination unchanged.  This matches the spec's
collaborator contract `fetch(handle, destination_path) -> success`.

Path manipulation helpers (`split`, `join`, `lower`, `strip`,
`os.path.join`) are defined on the character-list representation of
strings so that they both execute and admit induction.
-/

namespace VastAI

/-! ## String helpers mirroring the Python primitives -/

/-- Python `"/".join`-style split: `s.split("/")`, keeping empty pieces
(`"a//b" -> ["a", "", "b"]`, `"" -> [""]`).  Accumulator-based recursion
on the character list. -/
def splitSlashAux (acc : List Char) : List Char → List String
  | [] => [⟨acc⟩]
  | c :: rest =>
    if c = '/' then ⟨acc⟩ :: splitSlashAux [] rest
    else splitSlashAux (acc ++ [c]) rest

/-- Python `rel_path.split("/")`. -/
def splitSlash (s : String) : List String :=
  splitSlashAux [] s.data

/-- Python `"/".join(parts)`. -/
def joinSlash : List String → String
  | [] => ""
  | [x] => x
  | x :: y :: rest => x ++ "/" ++ joinSlash (y :: rest)

/-- Python `s.lower()` (ASCII case fold, as used on folder names). -/
def pyLower (s : String) : String := ⟨s.data.map Char.toLower⟩

/-- Python `s.strip()`: drop whitespace from both ends. -/
def pyStrip (s : String) : String :=
  ⟨((s.data.dropWhile Char.isWhitespace).reverse.dropWhile Char.isWhitespace).reverse⟩

/-- Does the string begin with the given character? (used for absolute
path detection in `os.path.join`). -/
def headIs (c : Char) (s : String) : Bool :=
  match s.data with
  | [] => false
  | d :: _ => d = c

/-- Does the string end with the given character? -/
def lastIs (c : Char) (s : String) : Bool :=
  match s.data.getLast? with
  | none => false
  | some d => d = c

/-- Python `os.path.join(a, b)` for POSIX paths: an absolute second
component discards the first; otherwise a separator is inserted unless
`a` already ends with one. -/
def joinPath (a b : String) : String :=
  if headIs '/' b then b
  else if lastIs '/' a then a ++ b
  else a ++ "/" ++ b

/-- Python `os.path.join(a, b, c)`. -/
def join3 (a b c : String) : String := joinPath (joinPath a b) c

/-- Marker suffix `STUB_MARKER_EXT = ".stub"`. -/
def STUB_MARKER_EXT : String := ".stub"

/-- `COMFYUI_PATH = "/app"`, `MODELS_PATH = f"{COMFYUI_PATH}/models"`. -/
def MODELS_PATH : String := "/app/models"

/-- The fixed `MODEL_SUBDIRS` table. -/
def MODEL_SUBDIRS : List String :=
  ["checkpoints", "clip", "clip_vision", "configs", "controlnet",
   "diffusers", "diffusion_models", "embeddings", "gligen",
   "hypernetworks", "loras", "model_patches", "style_models",
   "text_encoders", "unet", "upscale_models", "vae", "vae_approx",
   "audio_encoders", "latent_upscale_models", "photomaker"]

/-- `folder_aliases.get(subfolder, subfolder)`. -/
def applyAlias (s : String) : String :=
  if s = "text_encoders" then "clip"
  else if s = "diffusion_models" then "unet"
  else s

/-- Does the path end with the marker suffix `".stub"`?  A path of this
shape can collide with another slot's sidecar marker. -/
def endsStub (p : String) : Bool :=
  STUB_MARKER_EXT.data.isSuffixOf p.data

/-- The sidecar marker path of a model path: `local_path + STUB_MARKER_EXT`. -/
def mk (p : String) : String := p ++ STUB_MARKER_EXT

/-! ## Filesystem model -/

/-- Local filesystem: path contents, `none` when no file exists.
File size is content length. -/
def FS : Type := String → Option String

/-- Write or remove one path. -/
def FS.set (fs : FS) (p : String) (v : Option String) : FS :=
  fun q => if q = p then v else fs q

/-- The empty filesystem. -/
def FS.empty : FS := fun _ => none

/-- `os.path.getsize` (only meaningful when the file exists). -/
def FS.size (fs : FS) (p : String) : Nat := ((fs p).getD "").length

/-! ## Category resolution and stub materialization (`create_stubs`) -/

/-- The per-entry path analysis inside `create_stubs` (lines 84–102):
split the relative path, reject entries with fewer than two components,
lower-case and alias the top folder, reject unknown categories, and
compute the local file path.  Returns `(subfolder, local_file)`. -/
def catalogTarget (rel : String) : Option (String × String) :=
  match splitSlash rel with
  | [] => none
  | [_] => none
  | p0 :: f1 :: fr =>
    let subfolder := applyAlias (pyLower p0)
    let filename := joinSlash (f1 :: fr)
    if subfolder ∈ MODEL_SUBDIRS then
      some (subfolder, joinPath (joinPath MODELS_PATH subfolder) filename)
    else none

/-- The category alone (`None` = entry rejected). -/
def resolveCategory (rel : String) : Option String :=
  (catalogTarget rel).map (·.1)

/-- The local file path alone. -/
def targetOf (rel : String) : Option String :=
  (catalogTarget rel).map (·.2)

/-- Skip test of `create_stubs` (lines 106–108): a real file already
exists (`exists and getsize > 0`) and no marker is present. -/
def skipEntry (fs : FS) (lf : String) : Bool :=
  (fs lf).isSome && fs.size lf > 0 && !(fs (mk lf)).isSome

/-- The two writes of `create_stubs` (lines 114–119): truncate the model
path to zero bytes and write the file id into the sidecar marker. -/
def writePair (fs : FS) (lf id : String) : FS :=
  (fs.set lf (some "")).set (mk lf) (some id)

/-- Effect of one catalog entry on the filesystem. -/
def stubStep (fs : FS) (e : String × String) : FS :=
  match targetOf e.1 with
  | none => fs
  | some lf => if skipEntry fs lf then fs else writePair fs lf e.2

/-- Filesystem part of a whole `create_stubs` run. -/
def stubFold (fs : FS) (C : List (String × String)) : FS :=
  C.foldl stubStep fs

/-- The `(local_file, file_id)` pairs actually written (in order),
i.e. the `stub_map[local_file] = file_id` assignments performed. -/
def stubWrites (fs : FS) : List (String × String) → List (String × String)
  | [] => []
  | e :: C =>
    match targetOf e.1 with
    | none => stubWrites fs C
    | some lf =>
      if skipEntry fs lf then stubWrites fs C
      else (lf, e.2) :: stubWrites (writePair fs lf e.2) C

/-- Python dict assignment `m[k] = v`: update in place when the key is
present, append otherwise. -/
def dictSet (m : List (String × String)) (k v : String) : List (String × String) :=
  if m.any (·.1 == k) then m.map (fun kv => if kv.1 == k then (k, v) else kv)
  else m ++ [(k, v)]

/-- Replay a sequence of dict assignments. -/
def dictApply (m : List (String × String)) (l : List (String × String)) :
    List (String × String) :=
  l.foldl (fun m kv => dictSet m kv.1 kv.2) m

/-- `create_stubs(gdrive_files)`: returns the final filesystem, the
`stub_map` (as an insertion-ordered dict) and the `created` counter. -/
def create_stubs (gdrive_files : List (String × String)) (fs : FS) :
    FS × List (String × String) × Nat :=
  (stubFold fs gdrive_files,
   dictApply [] (stubWrites fs gdrive_files),
   (stubWrites fs gdrive_files).length)

/-! ## `download_model` and `is_stub` -/

/-- The remote content store: file id to optional content.  `some c`
means `gdown.download` succeeds and writes `c` into the destination;
`none` means it raises (destination untouched). -/
def Store : Type := String → Option String

/-- `download_model(local_path, file_id)` (lines 128–163).  Returns the
success flag and the filesystem afterwards.  On success the fetched
content replaces the file and the marker is removed if present; the
skip branch (`size_before > 0` and no marker) and the failure branch
leave the filesystem unchanged. -/
def download_model (store : Store) (fs : FS) (local_path file_id : String) :
    Bool × FS :=
  let stub_marker := mk local_path
  let size_before := if (fs local_path).isSome then fs.size local_path else 0
  if size_before > 0 && !(fs stub_marker).isSome then (true, fs)
  else
    match store file_id with
    | some content =>
      let fs1 := fs.set local_path (some content)
      let fs2 := if (fs1 stub_marker).isSome then fs1.set stub_marker none else fs1
      (true, fs2)
    | none => (false, fs)

/-- `is_stub(filepath)`: the companion `.stub` marker exists. -/
def is_stub (fs : FS) (p : String) : Bool := (fs (mk p)).isSome

/-! ## JSON-ish values for workflow / prompt specifications

Nodes come from parsed JSON.  `vstr` and `vdict` are the cases the code
inspects; `varr` stands for JSON arrays (unhashable in Python, so using
one as a dict-membership key raises `TypeError`); `vother` stands for the
remaining hashable primitives (numbers, booleans, `null`), carrying only
their truthiness, which is all the code observes of them. -/

inductive PV where
  | vstr (s : String)
  | vdict (fields : List (String × PV))
  | varr (elems : List PV)
  | vother (truthy : Bool)

/-- Python truthiness. -/
def PV.truthy : PV → Bool
  | .vstr s => !s.isEmpty
  | .vdict f => !f.isEmpty
  | .varr e => !e.isEmpty
  | .vother t => t

def PV.isDict : PV → Bool
  | .vdict _ => true
  | _ => false

/-- Python `d.get(k)` on a dict (`None` when absent). -/
def dictGet (fields : List (String × PV)) (k : String) : Option PV :=
  (fields.find? (·.1 == k)).map (·.2)

/-- The fixed `MODEL_NODES` table (identical in both resolvers):
node kind to `(model_type, input_key)`. -/
def MODEL_NODES : List (String × String × String) :=
  [("CheckpointLoaderSimple", "checkpoints", "ckpt_name"),
   ("CheckpointLoader", "checkpoints", "ckpt_name"),
   ("LoraLoader", "loras", "lora_name"),
   ("LoraLoaderModelOnly", "loras", "lora_name"),
   ("VAELoader", "vae", "vae_name"),
   ("ControlNetLoader", "controlnet", "control_net_name"),
   ("UpscaleModelLoader", "upscale_models", "model_name"),
   ("CLIPLoader", "clip", "clip_name"),
   ("UNETLoader", "unet", "unet_name"),
   ("DualCLIPLoader", "clip", "clip_name1")]

def modelNodeLookup (ct : String) : Option (String × String) :=
  (MODEL_NODES.find? (·.1 == ct)).map (·.2)

/-- `node.get("class_type", "")`. -/
def getClassType (node : List (String × PV)) : PV :=
  (dictGet node "class_type").getD (PV.vstr "")

/-- `node.get("inputs", {})`. -/
def getInputs (node : List (String × PV)) : PV :=
  (dictGet node "inputs").getD (PV.vdict [])

/-- `class_type in MODEL_NODES`: table lookup for strings, `False` for
other hashable values, `TypeError` (modelled as `error`) for unhashable
lists and dicts. -/
def classTypeInTable : PV → Except Unit (Option (String × String))
  | .vstr s => .ok (modelNodeLookup s)
  | .vother _ => .ok none
  | _ => .error ()

/-- `class_type == "DualCLIPLoader"` (plain equality, never raises). -/
def isDualCLIP : PV → Bool
  | .vstr s => s == "DualCLIPLoader"
  | _ => false

/-- `inputs.get(key)`: raises (`AttributeError`) when `inputs` is not a
dict — which the code only reaches when it has a key to look up. -/
def inputsGet : PV → String → Except Unit (Option PV)
  | .vdict fields, k => .ok (dictGet fields k)
  | _, _ => .error ()

/-! ## Model reference extraction (`resolve_stubs_for_workflow`, lines 196–215) -/

/-- Python `set.add` modelled as insertion-ordered deduplication (the
source iterates a `set`, whose order is unspecified; this embedding
fixes first-insertion order). -/
def addNeeded (l : List String) (p : String) : List String :=
  if p ∈ l then l else l ++ [p]

/-- Contribution of one node to `needed_models`.  First the
`MODEL_NODES` branch (with the `isinstance(name, str)` guard), then the
special `DualCLIPLoader` branch, whose `if name:` test has no
`isinstance` guard: a truthy non-string makes `os.path.join` raise. -/
def extractNode (acc : List String) (node : PV) : Except Unit (List String) :=
  match node with
  | .vdict fields => do
    let ct := getClassType fields
    let inp := getInputs fields
    let tbl ← classTypeInTable ct
    let acc1 ←
      match tbl with
      | some (mt, key) => do
        let nv ← inputsGet inp key
        match nv with
        | some (.vstr s) =>
          pure (if s.isEmpty then acc else addNeeded acc (join3 MODELS_PATH mt s))
        | _ => pure acc
      | none => pure acc
    if isDualCLIP ct then do
      let n1 ← inputsGet inp "clip_name1"
      let acc2 ←
        match n1 with
        | some v =>
          if v.truthy then
            match v with
            | .vstr s => pure (addNeeded acc1 (join3 MODELS_PATH "clip" s))
            | _ => .error ()
          else pure acc1
        | none => pure acc1
      let n2 ← inputsGet inp "clip_name2"
      match n2 with
      | some v =>
        if v.truthy then
          match v with
          | .vstr s => pure (addNeeded acc2 (join3 MODELS_PATH "clip" s))
          | _ => .error ()
        else pure acc2
      | none => pure acc2
    else pure acc1
  | _ => .error ()

/-- The whole `needed_models` computation over the workflow mapping. -/
def extractWorkflow : List (String × PV) → Except Unit (List String) → Except Unit (List String)
  | [], acc => acc
  | (_, node) :: rest, acc =>
    match acc with
    | .error e => .error e
    | .ok l =>
      extractWorkflow rest (extractNode l node)

/-- `needed_models` for a workflow (error = an exception escaped the
extraction loop before any download started). -/
def neededModels (nodes : List (String × PV)) : Except Unit (List String) :=
  extractWorkflow nodes (.ok [])

/-! ## Stub resolution over a set of paths (lines 219–228) -/

/-- One observable event of a resolver run: a `download_model` call with
its outcome, or one of the two log-only classifications. -/
inductive TraceEntry where
  | dl (path fileId : String) (ok : Bool)
  | avail (path : String)
  | missing (path : String)
deriving DecidableEq

/-- Paths for which a download was attempted (i.e. `download_model` was
invoked). -/
def attempted (tr : List TraceEntry) : List String :=
  tr.filterMap fun e =>
    match e with
    | .dl p _ _ => some p
    | _ => none

/-- Loop body of `resolve_stubs_for_workflow` for one needed path:
stubs are resolved via the marker's (stripped) file id; otherwise an
existing path is logged as already available and a non-existing one as
not found. -/
def resolveOne (store : Store) (fs : FS) (p : String) : FS × List TraceEntry :=
  if is_stub fs p then
    let fid := pyStrip ((fs (mk p)).getD "")
    let r := download_model store fs p fid
    (r.2, [.dl p fid r.1])
  else if (fs p).isSome then (fs, [.avail p])
  else (fs, [.missing p])

/-- The resolution loop over the needed paths. -/
def resolveList (store : Store) (fs : FS) : List String → FS × List TraceEntry
  | [] => (fs, [])
  | p :: rest =>
    let r := resolveOne store fs p
    let r' := resolveList store r.1 rest
    (r'.1, r.2 ++ r'.2)

/-- Result of a resolver call: filesystem, trace, and whether an
exception escaped the call (the caller catches it; side effects before
the raise persist). -/
structure RRes where
  fs : FS
  trace : List TraceEntry
  raised : Bool

/-- `resolve_stubs_for_workflow`.  The parsed workflow is a parameter
(`error` = the `json.load` failed, which the function catches and
returns early).  An exception during extraction escapes before any
download; the download loop itself never raises. -/
def resolve_stubs_for_workflow (store : Store) (parsed : Except Unit (List (String × PV)))
    (fs : FS) : RRes :=
  match parsed with
  | .error _ => ⟨fs, [], false⟩
  | .ok nodes =>
    match neededModels nodes with
    | .error _ => ⟨fs, [], true⟩
    | .ok needed =>
      let r := resolveList store fs needed
      ⟨r.1, r.2, false⟩

/-! ## `resolve_stubs_for_prompt` (lines 272–312)

Same loader table, but nodes are taken from an already-parsed prompt,
non-dict node values are skipped (`if not isinstance(node, dict):
continue`), and the per-key name check has the `isinstance(name, str)`
guard for every key.  The per-node key list is the `keys_to_check`
accumulation of the source. -/

/-- Iterate `keys_to_check` for one node.  `inputs.get` raises when
`inputs` is not a dict; effects of earlier keys persist past a raise. -/
def promptKeys (store : Store) (fs : FS) (inp : PV) :
    List (String × String) → RRes
  | [] => ⟨fs, [], false⟩
  | (mt, key) :: rest =>
    match inputsGet inp key with
    | .error _ => ⟨fs, [], true⟩
    | .ok nv =>
      let r :=
        match nv with
        | some (.vstr s) =>
          if s.isEmpty then (fs, ([] : List TraceEntry))
          else
            let p := join3 MODELS_PATH mt s
            if is_stub fs p then
              let fid := pyStrip ((fs (mk p)).getD "")
              let d := download_model store fs p fid
              (d.2, [TraceEntry.dl p fid d.1])
            else (fs, [])
        | _ => (fs, [])
      let r' := promptKeys store r.1 inp rest
      ⟨r'.fs, r.2 ++ r'.trace, r'.raised⟩

/-- One dict node of the prompt: compute `keys_to_check` (the
`MODEL_NODES` entry plus `("clip", "clip_name2")` for `DualCLIPLoader`)
and process it.  An unhashable `class_type` raises before any key. -/
def promptNode (store : Store) (fs : FS) (fields : List (String × PV)) : RRes :=
  let ct := getClassType fields
  let inp := getInputs fields
  match classTypeInTable ct with
  | .error _ => ⟨fs, [], true⟩
  | .ok tbl =>
    let keys :=
      (match tbl with
       | some (mt, key) => [(mt, key)]
       | none => []) ++
      (if isDualCLIP ct then [("clip", "clip_name2")] else [])
    promptKeys store fs inp keys

/-- `resolve_stubs_for_prompt(prompt_data, stub_map)`. -/
def resolve_stubs_for_prompt (store : Store) (nodes : List (String × PV)) (fs : FS) :
    RRes :=
  match nodes with
  | [] => ⟨fs, [], false⟩
  | (_, node) :: rest =>
    match node with
    | .vdict fields =>
      let r := promptNode store fs fields
      if r.raised then r
      else
        let r' := resolve_stubs_for_prompt store rest r.fs
        ⟨r'.fs, r.trace ++ r'.trace, r'.raised⟩
    | _ => resolve_stubs_for_prompt store rest fs

/-! ## `scan_gdrive_for_models` (lines 50–70) -/

/-- A file object as returned by `gdown.download_folder`; the source
only uses the `path` and `url` attributes when both are present
(`hasattr` checks). -/
structure GFile where
  path : Option String
  url : Option String

/-- Python `s.lstrip('./')`: drop leading characters belonging to the
set `{'.', '/'}`. -/
def pyLStripDotSlash (s : String) : String :=
  ⟨s.data.dropWhile (fun c => c = '.' || c = '/')⟩

/-- Python `s.replace('\\', '/')`. -/
def backslashToSlash (s : String) : String :=
  ⟨s.data.map (fun c => if c = '\\' then '/' else c)⟩

/-- Python `'id=' in url` (a substring occurs iff splitting on it yields
more than one piece). -/
def containsIdEq (s : String) : Bool := (s.splitOn "id=").length > 1

/-- `scan_gdrive_for_models(folder_id)`.  `listing` is the result of the
`gdown.download_folder` call: `none` when it (or anything in the `try`
block) raises a transport error, in which case the function logs and
returns the empty mapping. -/
def scan_gdrive_for_models (folder_id : String) (listing : Option (List GFile)) :
    List (String × String) :=
  match listing with
  | none => []
  | some files =>
    files.foldl
      (fun result f =>
        match f.path, f.url with
        | some p, some u =>
          let clean := pyLStripDotSlash (backslashToSlash p)
          if containsIdEq u then
            dictSet result clean ((u.splitOn "id=").getLastD "")
          else result
        | _, _ => result)
      []

/-! ## Sequences of materializer / resolver operations -/

/-- One operation of the subsystem: a `create_stubs` run over some
catalog, a direct `download_model` call, or a
`resolve_stubs_for_workflow` call. -/
inductive LOp where
  | mat (catalog : List (String × String))
  | dl (path fileId : String)
  | wf (parsed : Except Unit (List (String × PV)))

def applyOp (store : Store) (fs : FS) : LOp → FS
  | .mat c => (create_stubs c fs).1
  | .dl p fid => (download_model store fs p fid).2
  | .wf w => (resolve_stubs_for_workflow store w fs).fs

def applyOps (store : Store) (fs : FS) (ops : List LOp) : FS :=
  ops.foldl (applyOp store) fs

/-! ## Slot states (spec §3) -/

/-- "no file". -/
def NoFileSlot (fs : FS) (p : String) : Prop := fs p = none

/-- "zero-length file with marker present". -/
def StubSlot (fs : FS) (p : String) : Prop :=
  ∃ c, fs p = some c ∧ c.length = 0 ∧ (fs (mk p)).isSome = true

/-- "nonzero-length file with no marker". -/
def RealSlot (fs : FS) (p : String) : Prop :=
  ∃ c, fs p = some c ∧ 0 < c.length ∧ fs (mk p) = none

/-- The state the spec forbids: nonzero length and marker present. -/
def ForbiddenSlot (fs : FS) (p : String) : Prop :=
  ∃ c, fs p = some c ∧ 0 < c.length ∧ (fs (mk p)).isSome = true

/-- Exactly one of the three slot states holds. -/
def ExactlyOneSlot (fs : FS) (p : String) : Prop :=
  (NoFileSlot fs p ∧ ¬ StubSlot fs p ∧ ¬ RealSlot fs p) ∨
  (¬ NoFileSlot fs p ∧ StubSlot fs p ∧ ¬ RealSlot fs p) ∨
  (¬ NoFileSlot fs p ∧ ¬ StubSlot fs p ∧ RealSlot fs p)

/-- The invariant maintained by the operations on marker-free paths:
either slot absent with no marker, or a zero-length stub with marker,
or a nonzero real file with no marker. -/
def Inv (fs : FS) : Prop :=
  ∀ p, endsStub p = false →
    (fs p = none ∧ fs (mk p) = none) ∨
    (∃ c, fs p = some c ∧ c.length = 0 ∧ (fs (mk p)).isSome = true) ∨
    (∃ c, fs p = some c ∧ 0 < c.length ∧ fs (mk p) = none)

/-- Every handle the store can serve has nonzero content (model weight
files are nonempty). -/
def StoreOK (store : Store) : Prop := ∀ h c, store h = some c → c ≠ ""

/-- The filesystem after a successful fetch in `download_model`. -/
def postFetch (fs : FS) (p content : String) : FS :=
  let fs1 := fs.set p (some content)
  if (fs1 (mk p)).isSome then fs1.set (mk p) none else fs1

/-- Side condition on one operation: no path it writes ends in ".stub". -/
def OpOK : LOp → Prop
  | .mat c => ∀ e ∈ c, endsStub e.1 = false
  | .dl p _ => endsStub p = false
  | .wf w =>
    match w with
    | .error _ => True
    | .ok nodes =>
      match neededModels nodes with
      | .error _ => True
      | .ok l => ∀ p ∈ l, endsStub p = false

/-! ## Agreement of the two resolvers on attempted downloads

Infrastructure for comparing `resolve_stubs_for_workflow` and
`resolve_stubs_for_prompt`: a common per-path processing step, the pure
per-node path extraction each implementation performs, and a Boolean
wellformedness checker for prompts (dict nodes, hashable class types,
string-valued inputs whose names do not end in ".stub"). -/

/-- The shared "resolve one path if it is a stub" step: read the marker,
strip it, call `download_model`. -/
def stubCheckStep (store : Store) (fs : FS) (p : String) : FS × List TraceEntry :=
  if is_stub fs p then
    let fid := pyStrip ((fs (mk p)).getD "")
    let d := download_model store fs p fid
    (d.2, [TraceEntry.dl p fid d.1])
  else (fs, [])

/-- Processing a list of candidate paths with `stubCheckStep`. -/
def pathRun (store : Store) (fs : FS) : List String → FS × List TraceEntry
  | [] => (fs, [])
  | p :: rest =>
    let r := stubCheckStep store fs p
    let r' := pathRun store r.1 rest
    (r'.1, r.2 ++ r'.2)

/-- The `MODEL_NODES` lookup seen through a `class_type` value
(non-string hashables are simply not in the table). -/
def ctLookup : PV → Option (String × String)
  | .vstr s => modelNodeLookup s
  | _ => none

/-- The fields of the node's `inputs` dict (empty when absent). -/
def inputsFields (fields : List (String × PV)) : List (String × PV) :=
  match getInputs fields with
  | .vdict l => l
  | _ => []

/-- The path contributed by one `(model_type, key)` check: present only
when the input value is a nonempty string. -/
def pathOf (inpF : List (String × PV)) (mt key : String) : List String :=
  match dictGet inpF key with
  | some (.vstr s) => if s.isEmpty then [] else [join3 MODELS_PATH mt s]
  | _ => []

/-- Raw (pre-deduplication) path contributions of one node in
`resolve_stubs_for_workflow` order: the table branch, then for
`DualCLIPLoader` both clip inputs again. -/
def wfNodePaths (fields : List (String × PV)) : List String :=
  (match ctLookup (getClassType fields) with
   | some (mt, key) => pathOf (inputsFields fields) mt key
   | none => []) ++
  (if isDualCLIP (getClassType fields) then
    pathOf (inputsFields fields) "clip" "clip_name1" ++
    pathOf (inputsFields fields) "clip" "clip_name2"
   else [])

/-- Path contributions of one node in `resolve_stubs_for_prompt` order:
the table branch key, plus `clip_name2` for `DualCLIPLoader`. -/
def promptNodePaths (fields : List (String × PV)) : List String :=
  (match ctLookup (getClassType fields) with
   | some (mt, key) => pathOf (inputsFields fields) mt key
   | none => []) ++
  (if isDualCLIP (getClassType fields) then
    pathOf (inputsFields fields) "clip" "clip_name2"
   else [])

def wfPaths : List (String × PV) → List String
  | [] => []
  | (_, node) :: rest =>
    (match node with
     | .vdict fields => wfNodePaths fields
     | _ => []) ++ wfPaths rest

def promptPaths : List (String × PV) → List String
  | [] => []
  | (_, node) :: rest =>
    (match node with
     | .vdict fields => promptNodePaths fields
     | _ => []) ++ promptPaths rest

/-- Acceptable `class_type` values: absent, a string, or a hashable
primitive (an unhashable list/dict would raise in both resolvers, but at
different moments). -/
def ctOK : Option PV → Bool
  | none => true
  | some (.vstr _) => true
  | some (.vother _) => true
  | some _ => false

/-- A model-name input value: a string not ending in ".stub". -/
def inputValOK : PV → Bool
  | .vstr s => !endsStub s
  | _ => false

def inputsOK : Option PV → Bool
  | none => true
  | some (.vdict l) => l.all (fun kv => inputValOK kv.2)
  | some _ => false

def nodeOK : PV → Bool
  | .vdict fields => ctOK (dictGet fields "class_type") && inputsOK (dictGet fields "inputs")
  | _ => false

/-- Wellformed prompt: every node value is a dict with a hashable
class type and string-valued inputs not ending in ".stub". -/
def promptOK (nodes : List (String × PV)) : Bool :=
  nodes.all (fun kv => nodeOK kv.2)

/-! ## Claim theorems -/

/-- Store, operation sequence and filesystem for the C1 counterexample:
a real download of `checkpoints/foo` followed by materializing a catalog
that contains a file literally named `foo.stub` in the same folder. -/
def c1store : Store := fun h => if h = "id1" then some "DATA" else none

def c1ops : List LOp :=
  [.mat [("checkpoints/foo", "id1")],
   .dl "/app/models/checkpoints/foo" "id1",
   .mat [("checkpoints/foo.stub", "id2")]]

/-- Catalog and starting filesystem for the C4 counterexample: the
catalog holds both `checkpoints/a` and a file literally named
`checkpoints/a.stub`, and a real `a` already exists on disk. -/
def c4cat : List (String × String) :=
  [("checkpoints/a", "A"), ("checkpoints/a.stub", "B")]

def c4fs : FS := FS.empty.set "/app/models/checkpoints/a" (some "DATA")

/-- Is a value a string? (C9's claim hypothesis: string-valued inputs.) -/
def isStrV : PV → Bool
  | .vstr _ => true
  | _ => false

/-- The hypothesis of claim C9 exactly as stated: every node value is a
dict and every value of its `inputs` mapping is a string. -/
def stringInputNodes (nodes : List (String × PV)) : Bool :=
  nodes.all fun kv =>
    match kv.2 with
    | .vdict fields =>
      match dictGet fields "inputs" with
      | none => true
      | some (.vdict l) => l.all (fun kv2 => isStrV kv2.2)
      | some _ => false
    | _ => false

/-- Nodes, filesystem and store of the C9 counterexample: three CLIP
loader nodes referencing `a`, `a.stub`, `a` in that order; on disk only
the marker of `a.stub` exists. -/
def c9nodes : List (String × PV) :=
  [("1", .vdict [("class_type", .vstr "CLIPLoader"),
                 ("inputs", .vdict [("clip_name", .vstr "a")])]),
   ("2", .vdict [("class_type", .vstr "CLIPLoader"),
                 ("inputs", .vdict [("clip_name", .vstr "a.stub")])]),
   ("3", .vdict [("class_type", .vstr "CLIPLoader"),
                 ("inputs", .vdict [("clip_name", .vstr "a")])])]

def c9fs : FS := FS.empty.set "/app/models/clip/a.stub.stub" (some "id2")

def c9store : Store := fun h => if h = "id2" then some "W" else none

/-! ## Theorems -/

@[simp] theorem FS.set_same (fs : FS) (p : String) (v : Option String) :
    fs.set p v p = v := by
  simp [FS.set]

theorem FS.set_other (fs : FS) (p q : String) (v : Option String) (h : q ≠ p) :
    fs.set p v q = fs q := by
  simp [FS.set, h]

/-! ## String-level facts about paths and the marker suffix -/

theorem mk_inj {p q : String} (h : mk p = mk q) : p = q := by
  apply String.ext
  have hd : p.data ++ STUB_MARKER_EXT.data = q.data ++ STUB_MARKER_EXT.data := by
    have := congrArg String.data h
    simpa [mk, String.data_append] using this
  exact List.append_cancel_right hd

theorem endsStub_mk (p : String) : endsStub (mk p) = true := by
  simp only [endsStub, mk, String.data_append]
  exact List.isSuffixOf_iff_suffix.mpr (List.suffix_append _ _)

theorem mk_ne_of_nostub {p q : String} (hq : endsStub q = false) : mk p ≠ q := by
  intro h
  rw [← h, endsStub_mk] at hq
  exact Bool.noConfusion hq

theorem ne_mk_self (p : String) : p ≠ mk p := by
  intro h
  have := congrArg (fun s => s.data.length) h
  simp [mk, String.data_append, STUB_MARKER_EXT] at this

/-- A suffix avoiding a separator character passes through it. -/
theorem suffix_of_suffix_sep {s a f : List Char} {c : Char}
    (hc : c ∉ s) (h : s <:+ a ++ c :: f) : s <:+ f := by
  obtain ⟨t, ht⟩ := h
  have hlen : t.length + s.length = a.length + 1 + f.length := by
    have := congrArg List.length ht
    simp at this
    omega
  have hs : s = (a ++ c :: f).drop t.length := by
    rw [← ht, List.drop_left]
  by_cases hle : s.length ≤ f.length
  · obtain ⟨n, hT⟩ : ∃ n, t.length = (a ++ [c]).length + n :=
      ⟨t.length - a.length - 1, by simp; omega⟩
    have key : s = f.drop n := by
      rw [hs, show a ++ c :: f = (a ++ [c]) ++ f by simp, hT, List.drop_append]
    rw [key]
    exact List.drop_suffix _ _
  · exfalso
    have hcf : c :: f = (a ++ c :: f).drop a.length := by
      rw [List.drop_left]
    have htle : t.length ≤ a.length := by omega
    have hmem : c ∈ s := by
      have hdd : c :: f = s.drop (a.length - t.length) := by
        rw [hs, List.drop_drop]
        have he : t.length + (a.length - t.length) = a.length := by omega
        rw [he]
        exact hcf
      have : c ∈ s.drop (a.length - t.length) := by
        rw [← hdd]; exact List.mem_cons_self _ _
      exact List.mem_of_mem_drop this
    exact hc hmem

theorem endsStub_eq_true_iff {p : String} :
    endsStub p = true ↔ STUB_MARKER_EXT.data <:+ p.data := by
  simp [endsStub, List.isSuffixOf_iff_suffix]

/-- ".stub" suffixes pass from the right component of an
`a ++ "/" ++ b` concatenation. -/
theorem endsStub_append_sep {a b : String}
    (h : endsStub (a ++ "/" ++ b) = true) : endsStub b = true := by
  rw [endsStub_eq_true_iff] at h ⊢
  have hd : (a ++ "/" ++ b).data = a.data ++ '/' :: b.data := by
    simp [String.data_append]
  rw [hd] at h
  exact suffix_of_suffix_sep (by decide) h

/-- ".stub" suffixes are inherited by extensions on the left. -/
theorem endsStub_append_left {a b : String}
    (h : endsStub b = true) : endsStub (a ++ b) = true := by
  rw [endsStub_eq_true_iff] at h ⊢
  rw [String.data_append]
  exact h.trans (List.suffix_append _ _)

theorem endsStub_joinPath {a b : String} (ha : lastIs '/' a = false)
    (h : endsStub (joinPath a b) = true) : endsStub b = true := by
  unfold joinPath at h
  by_cases hb : headIs '/' b
  · simpa [hb] using h
  · rw [if_neg hb, if_neg (by simp [ha])] at h
    exact endsStub_append_sep h

/-! ## Facts about splitting and joining paths -/

theorem splitSlashAux_ne_nil (l : List Char) (acc : List Char) :
    splitSlashAux acc l ≠ [] := by
  induction l generalizing acc with
  | nil => simp [splitSlashAux]
  | cons c rest ih =>
    by_cases hc : c = '/'
    · simp [splitSlashAux, hc]
    · simpa [splitSlashAux, hc] using ih (acc ++ [c])

theorem joinSlash_cons_cons (x y : String) (t : List String) :
    joinSlash (x :: y :: t) = x ++ "/" ++ joinSlash (y :: t) := rfl

theorem joinSlash_splitSlashAux (l : List Char) (acc : List Char) :
    (joinSlash (splitSlashAux acc l)).data = acc ++ l := by
  induction l generalizing acc with
  | nil => simp [splitSlashAux, joinSlash]
  | cons c rest ih =>
    by_cases hc : c = '/'
    · obtain ⟨y, t, hyt⟩ := List.exists_cons_of_ne_nil (splitSlashAux_ne_nil rest [])
      subst hc
      rw [show splitSlashAux acc ('/' :: rest) = ⟨acc⟩ :: splitSlashAux [] rest by
            simp [splitSlashAux],
        hyt, joinSlash_cons_cons, ← hyt]
      simp [String.data_append, ih]
    · rw [show splitSlashAux acc (c :: rest) = splitSlashAux (acc ++ [c]) rest by
            simp [splitSlashAux, hc]]
      simp [ih]

/-- `"/".join(s.split("/")) == s`. -/
theorem joinSlash_splitSlash (s : String) : joinSlash (splitSlash s) = s := by
  apply String.ext
  simpa using joinSlash_splitSlashAux s.data []

/-- A split that produced at least two components decomposes the path. -/
theorem splitSlash_decomp {rel : String} {p0 f1 : String} {fr : List String}
    (h : splitSlash rel = p0 :: f1 :: fr) :
    rel = p0 ++ "/" ++ joinSlash (f1 :: fr) := by
  conv_lhs => rw [← joinSlash_splitSlash rel]
  rw [h, joinSlash_cons_cons]

theorem subdir_dir_not_slash :
    ∀ sub ∈ MODEL_SUBDIRS, lastIs '/' (joinPath MODELS_PATH sub) = false := by
  decide

/-- A catalog entry whose relative path does not end in ".stub" yields a
local file path that does not end in ".stub" either. -/
theorem catalogTarget_nostub {rel sub lf : String}
    (hrel : endsStub rel = false) (h : catalogTarget rel = some (sub, lf)) :
    endsStub lf = false := by
  unfold catalogTarget at h
  cases hsplit : splitSlash rel with
  | nil => rw [hsplit] at h; exact absurd h (by simp)
  | cons p0 rest =>
    cases rest with
    | nil => rw [hsplit] at h; exact absurd h (by simp)
    | cons f1 fr =>
      rw [hsplit] at h
      simp only at h
      by_cases hmem : applyAlias (pyLower p0) ∈ MODEL_SUBDIRS
      · rw [if_pos hmem] at h
        injection h with h2
        injection h2 with hsub hlf
        by_contra hstub
        have hstub' : endsStub lf = true := by
          cases hval : endsStub lf
          · exact absurd hval hstub
          · rfl
        have h1 : endsStub (joinSlash (f1 :: fr)) = true := by
          apply endsStub_joinPath _ (hlf ▸ hstub')
          exact subdir_dir_not_slash _ (hsub ▸ hmem)
        have h2 : endsStub rel = true := by
          rw [splitSlash_decomp hsplit]
          exact endsStub_append_left h1
        rw [h2] at hrel
        exact Bool.noConfusion hrel
      · rw [if_neg hmem] at h
        exact absurd h (by simp)

/-! ## Preservation of the slot invariant -/

theorem str_len_pos {c : String} (h : c ≠ "") : 0 < c.length := by
  rcases hn : c.data with _ | _
  · exact absurd (String.ext hn) h
  · simp [String.length, hn]

theorem writePair_at_file (fs : FS) (lf id : String) :
    writePair fs lf id lf = some "" := by
  simp [writePair, FS.set, ne_mk_self lf]

theorem writePair_at_marker (fs : FS) (lf id : String) :
    writePair fs lf id (mk lf) = some id := by
  simp [writePair, FS.set]

theorem writePair_at_other (fs : FS) (lf id q : String)
    (h1 : q ≠ lf) (h2 : q ≠ mk lf) : writePair fs lf id q = fs q := by
  simp [writePair, FS.set, h1, h2]

theorem writePair_preserves_inv {fs : FS} {lf id : String}
    (hInv : Inv fs) (hlf : endsStub lf = false) : Inv (writePair fs lf id) := by
  intro p hp
  by_cases hpl : p = lf
  · subst hpl
    right; left
    exact ⟨"", writePair_at_file fs p id, rfl, by rw [writePair_at_marker]; rfl⟩
  · have h1 : writePair fs lf id p = fs p :=
      writePair_at_other fs lf id p hpl (fun h => (mk_ne_of_nostub hp) h.symm)
    have h2 : writePair fs lf id (mk p) = fs (mk p) :=
      writePair_at_other fs lf id (mk p)
        (fun h => (mk_ne_of_nostub hlf) h)
        (fun h => hpl (mk_inj h))
    rw [h1, h2]
    exact hInv p hp

theorem stubStep_preserves_inv {fs : FS} {e : String × String}
    (hInv : Inv fs) (he : endsStub e.1 = false) : Inv (stubStep fs e) := by
  unfold stubStep
  cases ht : targetOf e.1 with
  | none => exact hInv
  | some lf =>
    have hlf : endsStub lf = false := by
      unfold targetOf at ht
      cases hct : catalogTarget e.1 with
      | none => rw [hct] at ht; exact absurd ht (by simp)
      | some pr =>
        rw [hct] at ht
        have h2 : pr.2 = lf := by simpa using ht
        exact catalogTarget_nostub he (by rw [hct, ← h2])
    by_cases hskip : skipEntry fs lf
    · simpa [hskip] using hInv
    · simpa [hskip] using writePair_preserves_inv hInv hlf

theorem stubFold_preserves_inv {C : List (String × String)} :
    ∀ {fs : FS}, Inv fs → (∀ e ∈ C, endsStub e.1 = false) → Inv (stubFold fs C) := by
  induction C with
  | nil => intro fs h _; exact h
  | cons e C ih =>
    intro fs hInv hC
    rw [show stubFold fs (e :: C) = stubFold (stubStep fs e) C from rfl]
    exact ih (stubStep_preserves_inv hInv (hC e (List.mem_cons_self e C)))
      (fun e' he' => hC e' (List.mem_cons_of_mem e he'))

theorem download_model_cases (store : Store) (fs : FS) (p fid : String) :
    (download_model store fs p fid).2 = fs ∨
    ∃ content, store fid = some content ∧
      (download_model store fs p fid).2 = postFetch fs p content := by
  unfold download_model postFetch
  dsimp only
  split
  · split
    · left; rfl
    · split
      · next content hst => right; exact ⟨content, hst, rfl⟩
      · left; rfl
  · split
    · left; rfl
    · split
      · next content hst => right; exact ⟨content, hst, rfl⟩
      · left; rfl

theorem postFetch_at_file (fs : FS) (p content : String) :
    postFetch fs p content p = some content := by
  unfold postFetch
  split
  · rw [FS.set_other _ _ _ _ (ne_mk_self p), FS.set_same]
  · rw [FS.set_same]

theorem postFetch_at_marker (fs : FS) (p content : String) :
    postFetch fs p content (mk p) = none := by
  unfold postFetch
  split
  · rw [FS.set_same]
  · next hm => simpa using hm

theorem postFetch_at_other (fs : FS) (p content q : String)
    (h1 : q ≠ p) (h2 : q ≠ mk p) : postFetch fs p content q = fs q := by
  unfold postFetch
  split
  · rw [FS.set_other _ _ _ _ h2, FS.set_other _ _ _ _ h1]
  · rw [FS.set_other _ _ _ _ h1]

theorem postFetch_preserves_inv {fs : FS} {p content : String}
    (hInv : Inv fs) (hp : endsStub p = false) (hcne : content ≠ "") :
    Inv (postFetch fs p content) := by
  intro q hq
  by_cases hqp : q = p
  · subst hqp
    right; right
    exact ⟨content, postFetch_at_file fs q content, str_len_pos hcne,
      postFetch_at_marker fs q content⟩
  · rw [postFetch_at_other fs p content q hqp
        (fun h => (mk_ne_of_nostub hq) h.symm),
      postFetch_at_other fs p content (mk q)
        (fun h => (mk_ne_of_nostub hp) h)
        (fun h => hqp (mk_inj h))]
    exact hInv q hq

theorem download_preserves_inv {store : Store} {fs : FS} {p fid : String}
    (hstore : StoreOK store) (hInv : Inv fs) (hp : endsStub p = false) :
    Inv (download_model store fs p fid).2 := by
  rcases download_model_cases store fs p fid with h | ⟨content, hst, h⟩
  · rw [h]; exact hInv
  · rw [h]
    exact postFetch_preserves_inv hInv hp (hstore fid content hst)

theorem resolveOne_preserves_inv {store : Store} {fs : FS} {p : String}
    (hstore : StoreOK store) (hInv : Inv fs) (hp : endsStub p = false) :
    Inv (resolveOne store fs p).1 := by
  unfold resolveOne
  by_cases hs : is_stub fs p
  · simpa [hs] using download_preserves_inv hstore hInv hp
  · by_cases he : (fs p).isSome
    · simpa [hs, he] using hInv
    · simpa [hs, he] using hInv

theorem resolveList_preserves_inv {store : Store} {l : List String}
    (hstore : StoreOK store) :
    ∀ {fs : FS}, Inv fs → (∀ p ∈ l, endsStub p = false) →
      Inv (resolveList store fs l).1 := by
  induction l with
  | nil => intro fs h _; exact h
  | cons p l ih =>
    intro fs hInv hl
    unfold resolveList
    exact ih (resolveOne_preserves_inv hstore hInv (hl p (List.mem_cons_self p l)))
      (fun q hq => hl q (List.mem_cons_of_mem p hq))

theorem applyOp_preserves_inv {store : Store} {fs : FS} {op : LOp}
    (hstore : StoreOK store) (hop : OpOK op) (hInv : Inv fs) :
    Inv (applyOp store fs op) := by
  cases op with
  | mat c => exact stubFold_preserves_inv hInv hop
  | dl p fid => exact download_preserves_inv hstore hInv hop
  | wf w =>
    have hred : applyOp store fs (.wf w) = (resolve_stubs_for_workflow store w fs).fs := rfl
    rw [hred]
    cases w with
    | error e => exact hInv
    | ok nodes =>
      unfold resolve_stubs_for_workflow
      cases hn : neededModels nodes with
      | error e => simp only [hn]; exact hInv
      | ok l =>
        simp only [hn]
        have hl : ∀ p ∈ l, endsStub p = false := by
          have h2 := hop
          simp only [OpOK, hn] at h2
          exact h2
        exact resolveList_preserves_inv hstore hInv hl

theorem applyOps_preserves_inv {store : Store} {ops : List LOp}
    (hstore : StoreOK store) :
    ∀ {fs : FS}, Inv fs → (∀ op ∈ ops, OpOK op) → Inv (applyOps store fs ops) := by
  induction ops with
  | nil => intro fs h _; exact h
  | cons op ops ih =>
    intro fs hInv hops
    exact ih (applyOp_preserves_inv hstore (hops op (List.mem_cons_self op ops)) hInv)
      (fun o ho => hops o (List.mem_cons_of_mem op ho))

theorem Inv_empty : Inv FS.empty := by
  intro p _
  left
  exact ⟨rfl, rfl⟩

theorem Inv_slot {fs : FS} {p : String} (hInv : Inv fs) (hp : endsStub p = false) :
    ExactlyOneSlot fs p ∧ ¬ ForbiddenSlot fs p := by
  rcases hInv p hp with ⟨h1, h2⟩ | ⟨c, h1, h2, h3⟩ | ⟨c, h1, h2, h3⟩
  · constructor
    · left
      refine ⟨h1, ?_, ?_⟩
      · rintro ⟨c, hc, -, -⟩; rw [h1] at hc; exact Option.noConfusion hc
      · rintro ⟨c, hc, -, -⟩; rw [h1] at hc; exact Option.noConfusion hc
    · rintro ⟨c, hc, -, -⟩; rw [h1] at hc; exact Option.noConfusion hc
  · constructor
    · right; left
      refine ⟨?_, ⟨c, h1, h2, h3⟩, ?_⟩
      · intro hn; rw [NoFileSlot, h1] at hn; exact Option.noConfusion hn
      · rintro ⟨c', hc', -, hm⟩; rw [hm] at h3; exact Bool.noConfusion h3.symm
    · rintro ⟨c', hc', hlen, -⟩
      rw [h1] at hc'
      cases Option.some.inj hc'
      omega
  · constructor
    · right; right
      refine ⟨?_, ?_, ⟨c, h1, h2, h3⟩⟩
      · intro hn; rw [NoFileSlot, h1] at hn; exact Option.noConfusion hn
      · rintro ⟨c', hc', hlen, -⟩
        rw [h1] at hc'
        cases Option.some.inj hc'
        omega
    · rintro ⟨c', -, -, hm⟩
      rw [h3] at hm
      exact Bool.noConfusion hm

/-! ## Idempotence of `create_stubs` (no catalog path ending in ".stub") -/

theorem targetOf_nostub {rel lf : String}
    (hrel : endsStub rel = false) (h : targetOf rel = some lf) :
    endsStub lf = false := by
  unfold targetOf at h
  cases hct : catalogTarget rel with
  | none => rw [hct] at h; exact absurd h (by simp)
  | some pr =>
    rw [hct] at h
    have h2 : pr.2 = lf := by simpa using h
    exact catalogTarget_nostub hrel (by rw [hct, ← h2])

theorem skipEntry_iff {fs : FS} {lf : String} :
    skipEntry fs lf = true ↔
      (fs lf).isSome = true ∧ 0 < fs.size lf ∧ fs (mk lf) = none := by
  simp [skipEntry, Bool.and_eq_true, and_assoc]

theorem skipEntry_congr {u v : FS} {lf : String}
    (h1 : u lf = v lf) (h2 : u (mk lf) = v (mk lf)) :
    skipEntry u lf = skipEntry v lf := by
  unfold skipEntry FS.size
  rw [h1, h2]

theorem skipEntry_of_stub {fs : FS} {lf : String} (h : fs lf = some "") :
    skipEntry fs lf = false := by
  simp [skipEntry, FS.size, h]

theorem stubFold_cons (fs : FS) (e : String × String) (C : List (String × String)) :
    stubFold fs (e :: C) = stubFold (stubStep fs e) C := rfl

theorem stubStep_none {fs : FS} {e : String × String} (ht : targetOf e.1 = none) :
    stubStep fs e = fs := by
  simp [stubStep, ht]

theorem stubStep_skip {fs : FS} {e : String × String} {lf : String}
    (ht : targetOf e.1 = some lf) (hs : skipEntry fs lf = true) :
    stubStep fs e = fs := by
  simp [stubStep, ht, hs]

theorem stubStep_write {fs : FS} {e : String × String} {lf : String}
    (ht : targetOf e.1 = some lf) (hs : skipEntry fs lf = false) :
    stubStep fs e = writePair fs lf e.2 := by
  simp [stubStep, ht, hs]

theorem stubWrites_cons_none {fs : FS} {e : String × String} {C : List (String × String)}
    (ht : targetOf e.1 = none) :
    stubWrites fs (e :: C) = stubWrites fs C := by
  simp [stubWrites, ht]

theorem stubWrites_cons_skip {fs : FS} {e : String × String} {C : List (String × String)}
    {lf : String} (ht : targetOf e.1 = some lf) (hs : skipEntry fs lf = true) :
    stubWrites fs (e :: C) = stubWrites fs C := by
  simp [stubWrites, ht, hs]

theorem stubWrites_cons_write {fs : FS} {e : String × String} {C : List (String × String)}
    {lf : String} (ht : targetOf e.1 = some lf) (hs : skipEntry fs lf = false) :
    stubWrites fs (e :: C) = (lf, e.2) :: stubWrites (writePair fs lf e.2) C := by
  simp [stubWrites, ht, hs]

/-- A slot already holding a written stub keeps a zero-length file and a
present marker through any further no-".stub" materialization steps. -/
theorem stubFold_keeps_stub {C : List (String × String)}
    (HC : ∀ e ∈ C, endsStub e.1 = false) {lf : String} (hlf : endsStub lf = false) :
    ∀ {f : FS}, f lf = some "" → (f (mk lf)).isSome = true →
      stubFold f C lf = some "" ∧ (stubFold f C (mk lf)).isSome = true := by
  induction C with
  | nil => intro fs h1 h2; exact ⟨h1, h2⟩
  | cons e C ih =>
    intro fs h1 h2
    have He : endsStub e.1 = false := HC e (List.mem_cons_self e C)
    have HC' : ∀ e' ∈ C, endsStub e'.1 = false :=
      fun e' he' => HC e' (List.mem_cons_of_mem e he')
    rw [stubFold_cons]
    cases ht : targetOf e.1 with
    | none => rw [stubStep_none ht]; exact ih HC' h1 h2
    | some lf' =>
      have hlf' : endsStub lf' = false := targetOf_nostub He ht
      by_cases hskip : skipEntry fs lf' = true
      · rw [stubStep_skip ht hskip]; exact ih HC' h1 h2
      · rw [stubStep_write ht (by simpa using hskip)]
        by_cases hll : lf' = lf
        · subst hll
          exact ih HC' (writePair_at_file fs lf' e.2)
            (by rw [writePair_at_marker]; rfl)
        · have e1 : writePair fs lf' e.2 lf = fs lf :=
            writePair_at_other fs lf' e.2 lf (fun h => hll h.symm)
              (fun h => mk_ne_of_nostub hlf h.symm)
          have e2 : writePair fs lf' e.2 (mk lf) = fs (mk lf) :=
            writePair_at_other fs lf' e.2 (mk lf)
              (fun h => (mk_ne_of_nostub hlf') h)
              (fun h => hll (mk_inj h).symm)
          exact ih HC' (e1 ▸ h1) (e2 ▸ h2)

/-- A real, unmarked slot is left untouched by no-".stub"
materialization (every entry targeting it hits the skip branch). -/
theorem stubFold_keeps_real {C : List (String × String)}
    (HC : ∀ e ∈ C, endsStub e.1 = false) {lf : String} (hlf : endsStub lf = false) :
    ∀ {f : FS}, (f lf).isSome = true → 0 < f.size lf → f (mk lf) = none →
      stubFold f C lf = f lf ∧ stubFold f C (mk lf) = none := by
  induction C with
  | nil => intro fs _ _ h3; exact ⟨rfl, h3⟩
  | cons e C ih =>
    intro fs h1 h2 h3
    have He : endsStub e.1 = false := HC e (List.mem_cons_self e C)
    have HC' : ∀ e' ∈ C, endsStub e'.1 = false :=
      fun e' he' => HC e' (List.mem_cons_of_mem e he')
    rw [stubFold_cons]
    cases ht : targetOf e.1 with
    | none => rw [stubStep_none ht]; exact ih HC' h1 h2 h3
    | some lf' =>
      have hlf' : endsStub lf' = false := targetOf_nostub He ht
      by_cases hll : lf' = lf
      · subst hll
        rw [stubStep_skip ht (skipEntry_iff.mpr ⟨h1, h2, h3⟩)]
        exact ih HC' h1 h2 h3
      · by_cases hskip : skipEntry fs lf' = true
        · rw [stubStep_skip ht hskip]; exact ih HC' h1 h2 h3
        · rw [stubStep_write ht (by simpa using hskip)]
          have e1 : writePair fs lf' e.2 lf = fs lf :=
            writePair_at_other fs lf' e.2 lf (fun h => hll h.symm)
              (fun h => mk_ne_of_nostub hlf h.symm)
          have e2 : writePair fs lf' e.2 (mk lf) = fs (mk lf) :=
            writePair_at_other fs lf' e.2 (mk lf)
              (fun h => (mk_ne_of_nostub hlf') h)
              (fun h => hll (mk_inj h).symm)
          have hr := ih HC' (f := writePair fs lf' e.2)
            (by rw [e1]; exact h1)
            (by unfold FS.size; rw [e1]; exact h2)
            (by rw [e2]; exact h3)
          rw [hr.1, hr.2, e1]
          exact ⟨rfl, rfl⟩

/-- When no catalog entry targets a slot, materialization leaves both
the file and its marker unchanged. -/
theorem stubFold_no_target {C : List (String × String)}
    (HC : ∀ e ∈ C, endsStub e.1 = false) {lf : String} (hlf : endsStub lf = false)
    (hno : ∀ e ∈ C, targetOf e.1 ≠ some lf) :
    ∀ {f : FS}, stubFold f C lf = f lf ∧ stubFold f C (mk lf) = f (mk lf) := by
  induction C with
  | nil => intro fs; exact ⟨rfl, rfl⟩
  | cons e C ih =>
    intro fs
    have He : endsStub e.1 = false := HC e (List.mem_cons_self e C)
    have HC' : ∀ e' ∈ C, endsStub e'.1 = false :=
      fun e' he' => HC e' (List.mem_cons_of_mem e he')
    have hno' : ∀ e' ∈ C, targetOf e'.1 ≠ some lf :=
      fun e' he' => hno e' (List.mem_cons_of_mem e he')
    rw [stubFold_cons]
    cases ht : targetOf e.1 with
    | none => rw [stubStep_none ht]; exact ih HC' hno'
    | some lf' =>
      have hlf' : endsStub lf' = false := targetOf_nostub He ht
      have hll : lf' ≠ lf := by
        intro h
        exact hno e (List.mem_cons_self e C) (h ▸ ht)
      by_cases hskip : skipEntry fs lf' = true
      · rw [stubStep_skip ht hskip]; exact ih HC' hno'
      · rw [stubStep_write ht (by simpa using hskip)]
        have e1 : writePair fs lf' e.2 lf = fs lf :=
          writePair_at_other fs lf' e.2 lf (fun h => hll h.symm)
            (fun h => mk_ne_of_nostub hlf h.symm)
        have e2 : writePair fs lf' e.2 (mk lf) = fs (mk lf) :=
          writePair_at_other fs lf' e.2 (mk lf)
            (fun h => (mk_ne_of_nostub hlf') h)
            (fun h => hll (mk_inj h).symm)
        have hr := ih HC' hno' (f := writePair fs lf' e.2)
        rw [hr.1, hr.2, e1, e2]
        exact ⟨rfl, rfl⟩

/-- Two states that agree everywhere except on the *content* of one
written stub's marker produce the same write list, agree after the run
except at that marker, and become identical once some entry re-targets
the slot. -/
theorem stubRun_congr {C : List (String × String)}
    (HC : ∀ e ∈ C, endsStub e.1 = false) {lf : String} (hlf : endsStub lf = false) :
    ∀ {u v : FS}, (∀ q, q ≠ mk lf → u q = v q) → u lf = some "" →
      (u (mk lf)).isSome = true → (v (mk lf)).isSome = true →
      stubWrites u C = stubWrites v C ∧
      (∀ q, q ≠ mk lf → stubFold u C q = stubFold v C q) ∧
      ((∃ e ∈ C, targetOf e.1 = some lf) → stubFold u C = stubFold v C) := by
  induction C with
  | nil =>
    intro u v hagree _ _ _
    refine ⟨rfl, hagree, ?_⟩
    rintro ⟨e, he, -⟩
    exact absurd he (List.not_mem_nil e)
  | cons f C ih =>
    intro u v hagree hstub hum hvm
    have Hf : endsStub f.1 = false := HC f (List.mem_cons_self f C)
    have HC' : ∀ e' ∈ C, endsStub e'.1 = false :=
      fun e' he' => HC e' (List.mem_cons_of_mem f he')
    have hvstub : v lf = some "" := by
      rw [← hagree lf (fun h => ne_mk_self lf h)]
      exact hstub
    cases ht : targetOf f.1 with
    | none =>
      obtain ⟨w1, w2, w3⟩ := ih HC' hagree hstub hum hvm
      refine ⟨?_, ?_, ?_⟩
      · rw [stubWrites_cons_none ht, stubWrites_cons_none ht]; exact w1
      · rw [stubFold_cons, stubFold_cons, stubStep_none ht, stubStep_none ht]
        exact w2
      · rintro ⟨e, he, hte⟩
        rcases List.mem_cons.mp he with rfl | he'
        · rw [ht] at hte; exact absurd hte (by simp)
        · rw [stubFold_cons, stubFold_cons, stubStep_none ht, stubStep_none ht]
          exact w3 ⟨e, he', hte⟩
    | some lf' =>
      have hlf' : endsStub lf' = false := targetOf_nostub Hf ht
      by_cases hll : lf' = lf
      · -- the entry re-targets the distinguished slot: both write and the
        -- states become equal
        subst hll
        have hs_u : skipEntry u lf' = false := skipEntry_of_stub hstub
        have hs_v : skipEntry v lf' = false := skipEntry_of_stub hvstub
        have hw : writePair u lf' f.2 = writePair v lf' f.2 := by
          funext q
          by_cases h1 : q = mk lf'
          · subst h1; rw [writePair_at_marker, writePair_at_marker]
          · by_cases h2 : q = lf'
            · subst h2; rw [writePair_at_file, writePair_at_file]
            · rw [writePair_at_other _ _ _ _ h2 h1, writePair_at_other _ _ _ _ h2 h1]
              exact hagree q h1
        refine ⟨?_, ?_, ?_⟩
        · rw [stubWrites_cons_write ht hs_u, stubWrites_cons_write ht hs_v, hw]
        · intro q hq
          rw [stubFold_cons, stubFold_cons, stubStep_write ht hs_u,
            stubStep_write ht hs_v, hw]
        · intro _
          rw [stubFold_cons, stubFold_cons, stubStep_write ht hs_u,
            stubStep_write ht hs_v, hw]
      · -- unrelated entry: same decision, hypotheses preserved
        have hskip_eq : skipEntry u lf' = skipEntry v lf' :=
          skipEntry_congr
            (hagree lf' (fun h => (mk_ne_of_nostub hlf') h.symm))
            (hagree (mk lf') (fun h => hll (mk_inj h)))
        by_cases hskip : skipEntry u lf' = true
        · have hskip_v : skipEntry v lf' = true := hskip_eq ▸ hskip
          obtain ⟨w1, w2, w3⟩ := ih HC' hagree hstub hum hvm
          refine ⟨?_, ?_, ?_⟩
          · rw [stubWrites_cons_skip ht hskip, stubWrites_cons_skip ht hskip_v]
            exact w1
          · rw [stubFold_cons, stubFold_cons, stubStep_skip ht hskip,
              stubStep_skip ht hskip_v]
            exact w2
          · rintro ⟨e, he, hte⟩
            rcases List.mem_cons.mp he with rfl | he'
            · rw [ht] at hte
              exact absurd (Option.some.inj hte) hll
            · rw [stubFold_cons, stubFold_cons, stubStep_skip ht hskip,
                stubStep_skip ht hskip_v]
              exact w3 ⟨e, he', hte⟩
        · have hskip' : skipEntry u lf' = false := by simpa using hskip
          have hskip_v : skipEntry v lf' = false := hskip_eq ▸ hskip'
          have hagree' : ∀ q, q ≠ mk lf →
              writePair u lf' f.2 q = writePair v lf' f.2 q := by
            intro q hq
            by_cases h1 : q = mk lf'
            · subst h1; rw [writePair_at_marker, writePair_at_marker]
            · by_cases h2 : q = lf'
              · subst h2; rw [writePair_at_file, writePair_at_file]
              · rw [writePair_at_other _ _ _ _ h2 h1, writePair_at_other _ _ _ _ h2 h1]
                exact hagree q hq
          have hstub' : writePair u lf' f.2 lf = some "" := by
            rw [writePair_at_other _ _ _ _ (fun h => hll h.symm)
              (fun h => mk_ne_of_nostub hlf h.symm)]
            exact hstub
          have hum' : (writePair u lf' f.2 (mk lf)).isSome = true := by
            rw [writePair_at_other _ _ _ _ (fun h => (mk_ne_of_nostub hlf') h)
              (fun h => hll (mk_inj h).symm)]
            exact hum
          have hvm' : (writePair v lf' f.2 (mk lf)).isSome = true := by
            rw [writePair_at_other _ _ _ _ (fun h => (mk_ne_of_nostub hlf') h)
              (fun h => hll (mk_inj h).symm)]
            exact hvm
          obtain ⟨w1, w2, w3⟩ := ih HC' hagree' hstub' hum' hvm'
          refine ⟨?_, ?_, ?_⟩
          · rw [stubWrites_cons_write ht hskip', stubWrites_cons_write ht hskip_v]
            rw [w1]
          · rw [stubFold_cons, stubFold_cons, stubStep_write ht hskip',
              stubStep_write ht hskip_v]
            exact w2
          · rintro ⟨e, he, hte⟩
            rcases List.mem_cons.mp he with rfl | he'
            · rw [ht] at hte
              exact absurd (Option.some.inj hte) hll
            · rw [stubFold_cons, stubFold_cons, stubStep_write ht hskip',
                stubStep_write ht hskip_v]
              exact w3 ⟨e, he', hte⟩

/-- Main idempotence lemma: a second `create_stubs` run over the same
no-".stub" catalog leaves the filesystem unchanged and performs the same
`stub_map` assignments. -/
theorem stub_idem {C : List (String × String)}
    (HC : ∀ e ∈ C, endsStub e.1 = false) :
    ∀ fs : FS, stubFold (stubFold fs C) C = stubFold fs C ∧
      stubWrites (stubFold fs C) C = stubWrites fs C := by
  induction C with
  | nil => intro fs; exact ⟨rfl, rfl⟩
  | cons e C ih =>
    intro fs
    have He : endsStub e.1 = false := HC e (List.mem_cons_self e C)
    have HC' : ∀ e' ∈ C, endsStub e'.1 = false :=
      fun e' he' => HC e' (List.mem_cons_of_mem e he')
    cases ht : targetOf e.1 with
    | none =>
      have hstep : ∀ g : FS, stubFold g (e :: C) = stubFold g C := by
        intro g; rw [stubFold_cons, stubStep_none ht]
      have hwr : ∀ g : FS, stubWrites g (e :: C) = stubWrites g C := by
        intro g; rw [stubWrites_cons_none ht]
      simp only [hstep, hwr]
      exact ih HC' fs
    | some lf =>
      have hlf : endsStub lf = false := targetOf_nostub He ht
      by_cases hskip : skipEntry fs lf = true
      · -- first run skipped the entry: the slot is real and unmarked and
        -- stays so, so the second run skips it as well
        obtain ⟨h1, h2, h3⟩ := skipEntry_iff.mp hskip
        have hX := stubFold_keeps_real HC' hlf (f := fs) h1 h2 h3
        have hskipX : skipEntry (stubFold fs C) lf = true := by
          apply skipEntry_iff.mpr
          refine ⟨?_, ?_, hX.2⟩
          · rw [hX.1]; exact h1
          · unfold FS.size; rw [hX.1]; exact h2
        rw [stubFold_cons fs _ _, stubStep_skip ht hskip]
        rw [stubFold_cons, stubStep_skip ht hskipX]
        refine ⟨(ih HC' fs).1, ?_⟩
        rw [stubWrites_cons_skip ht hskipX, stubWrites_cons_skip ht hskip]
        exact (ih HC' fs).2
      · -- first run wrote the stub
        have hskip' : skipEntry fs lf = false := by simpa using hskip
        rw [stubFold_cons fs _ _, stubStep_write ht hskip']
        set g := writePair fs lf e.2 with hg
        set X := stubFold g C with hXdef
        have hgstub : g lf = some "" := writePair_at_file fs lf e.2
        have hgm : (g (mk lf)).isSome = true := by
          rw [hg, writePair_at_marker]; rfl
        have hXpair := stubFold_keeps_stub HC' hlf (f := g) hgstub hgm
        have hskipX : skipEntry X lf = false := skipEntry_of_stub hXpair.1
        rw [stubFold_cons X _ _, stubStep_write ht hskipX]
        have hagree : ∀ q, q ≠ mk lf → writePair X lf e.2 q = X q := by
          intro q hq
          by_cases h2 : q = lf
          · subst h2; rw [writePair_at_file]; exact hXpair.1.symm
          · exact writePair_at_other X lf e.2 q h2 hq
        have hXm' : (writePair X lf e.2 (mk lf)).isSome = true := by
          rw [writePair_at_marker]; rfl
        have hwstub : writePair X lf e.2 lf = some "" := writePair_at_file X lf e.2
        obtain ⟨w1, w2, w3⟩ :=
          stubRun_congr HC' hlf (u := writePair X lf e.2) (v := X)
            hagree hwstub hXm' hXpair.2
        constructor
        · by_cases htar : ∃ e' ∈ C, targetOf e'.1 = some lf
          · rw [w3 htar]
            exact (ih HC' g).1
          · have hnt : ∀ e' ∈ C, targetOf e'.1 ≠ some lf := by
              intro e' he' hc
              exact htar ⟨e', he', hc⟩
            have hXid : writePair X lf e.2 = X := by
              funext q
              by_cases h1 : q = mk lf
              · subst h1
                rw [writePair_at_marker]
                rw [hXdef, (stubFold_no_target HC' hlf hnt (f := g)).2, hg,
                  writePair_at_marker]
              · exact hagree q h1
            rw [hXid]
            exact (ih HC' g).1
        · rw [stubWrites_cons_write ht hskip', stubWrites_cons_write ht hskipX]
          rw [w1]
          exact congrArg _ (ih HC' g).2

theorem ct_shape {fields : List (String × PV)}
    (h : ctOK (dictGet fields "class_type") = true) :
    (∃ s, getClassType fields = .vstr s) ∨ (∃ b, getClassType fields = .vother b) := by
  unfold getClassType
  cases hg : dictGet fields "class_type" with
  | none => exact Or.inl ⟨"", rfl⟩
  | some v =>
    rw [hg] at h
    cases v with
    | vstr s => exact Or.inl ⟨s, rfl⟩
    | vother b => exact Or.inr ⟨b, rfl⟩
    | vdict l => exact absurd h (by simp [ctOK])
    | varr l => exact absurd h (by simp [ctOK])

theorem inputs_shape {fields : List (String × PV)}
    (h : inputsOK (dictGet fields "inputs") = true) :
    getInputs fields = .vdict (inputsFields fields) ∧
      ∀ kv ∈ inputsFields fields, inputValOK kv.2 = true := by
  cases hg : dictGet fields "inputs" with
  | none =>
    have hgi : getInputs fields = .vdict [] := by
      unfold getInputs; rw [hg]; rfl
    have hif : inputsFields fields = [] := by
      unfold inputsFields; rw [hgi]
    rw [hgi, hif]
    exact ⟨rfl, by simp⟩
  | some v =>
    rw [hg] at h
    cases v with
    | vdict l =>
      have hgi : getInputs fields = .vdict l := by
        unfold getInputs; rw [hg]; rfl
      have hif : inputsFields fields = l := by
        unfold inputsFields; rw [hgi]
      rw [hgi, hif]
      refine ⟨rfl, ?_⟩
      simpa [inputsOK, List.all_eq_true] using h
    | vstr s => exact absurd h (by simp [inputsOK])
    | vother b => exact absurd h (by simp [inputsOK])
    | varr l => exact absurd h (by simp [inputsOK])

theorem classTypeInTable_of_ok {ct : PV}
    (h : (∃ s, ct = .vstr s) ∨ (∃ b, ct = .vother b)) :
    classTypeInTable ct = .ok (ctLookup ct) := by
  rcases h with ⟨s, rfl⟩ | ⟨b, rfl⟩ <;> rfl

/-- Every table entry's model type has a directory that does not end in
a slash. -/
theorem modelNode_dir_ok :
    ∀ t ∈ MODEL_NODES, lastIs '/' (joinPath MODELS_PATH t.2.1) = false := by
  decide

theorem clip_dir_ok : lastIs '/' (joinPath MODELS_PATH "clip") = false := by
  decide

theorem join3_nostub {mt s : String}
    (hdir : lastIs '/' (joinPath MODELS_PATH mt) = false)
    (hs : endsStub s = false) : endsStub (join3 MODELS_PATH mt s) = false := by
  cases hval : endsStub (join3 MODELS_PATH mt s)
  · rfl
  · exact absurd (endsStub_joinPath hdir hval) (by rw [hs]; simp)

theorem dictGet_val_ok {l : List (String × PV)} {k : String} {v : PV}
    (hall : ∀ kv ∈ l, inputValOK kv.2 = true) (h : dictGet l k = some v) :
    ∃ s, v = .vstr s ∧ endsStub s = false := by
  unfold dictGet at h
  cases hf : l.find? (·.1 == k) with
  | none => rw [hf] at h; exact absurd h (by simp)
  | some kv =>
    rw [hf] at h
    have hmem : kv ∈ l := List.mem_of_find?_eq_some hf
    have hok := hall kv hmem
    have hv : kv.2 = v := by simpa using h
    rw [hv] at hok
    cases v with
    | vstr s => exact ⟨s, rfl, by simpa [inputValOK] using hok⟩
    | vdict d => exact absurd hok (by simp [inputValOK])
    | varr a => exact absurd hok (by simp [inputValOK])
    | vother b => exact absurd hok (by simp [inputValOK])

theorem inputsGet_dict (l : List (String × PV)) (k : String) :
    inputsGet (.vdict l) k = .ok (dictGet l k) := rfl

/-- Under wellformedness, one workflow node's extraction succeeds and
adds exactly its raw path contributions. -/
theorem extractNode_ok {fields : List (String × PV)} {acc : List String}
    (hn : nodeOK (.vdict fields) = true) :
    extractNode acc (.vdict fields) =
      .ok (List.foldl addNeeded acc (wfNodePaths fields)) := by
  have hn' := hn
  simp only [nodeOK, Bool.and_eq_true] at hn'
  obtain ⟨hgi, hvals⟩ := inputs_shape hn'.2
  have hctt := classTypeInTable_of_ok (ct_shape hn'.1)
  unfold extractNode wfNodePaths
  dsimp only
  rw [hgi, hctt]
  simp only [bind, Except.bind, pure, Except.pure, inputsGet_dict]
  have hdual_red : ∀ A : List String,
      (match dictGet (inputsFields fields) "clip_name1" with
       | some v =>
         if v.truthy = true then
           match v with
           | PV.vstr s =>
             match dictGet (inputsFields fields) "clip_name2" with
             | some v =>
               if v.truthy = true then
                 match v with
                 | PV.vstr s2 =>
                   Except.ok (addNeeded (addNeeded A (join3 MODELS_PATH "clip" s))
                     (join3 MODELS_PATH "clip" s2))
                 | _ => Except.error ()
               else Except.ok (addNeeded A (join3 MODELS_PATH "clip" s))
             | none => Except.ok (addNeeded A (join3 MODELS_PATH "clip" s))
           | _ => Except.error ()
         else
           match dictGet (inputsFields fields) "clip_name2" with
           | some v =>
             if v.truthy = true then
               match v with
               | PV.vstr s => Except.ok (addNeeded A (join3 MODELS_PATH "clip" s))
               | _ => Except.error ()
             else Except.ok A
           | none => Except.ok A
       | none =>
         match dictGet (inputsFields fields) "clip_name2" with
         | some v =>
           if v.truthy = true then
             match v with
             | PV.vstr s => Except.ok (addNeeded A (join3 MODELS_PATH "clip" s))
             | _ => Except.error ()
           else Except.ok A
         | none => Except.ok A) =
      Except.ok (List.foldl addNeeded A
        (pathOf (inputsFields fields) "clip" "clip_name1" ++
          pathOf (inputsFields fields) "clip" "clip_name2")) := by
    intro A
    cases hc1 : dictGet (inputsFields fields) "clip_name1" with
    | none =>
      cases hc2 : dictGet (inputsFields fields) "clip_name2" with
      | none => simp [pathOf, hc1, hc2]
      | some v2 =>
        obtain ⟨s2, rfl, -⟩ := dictGet_val_ok hvals hc2
        by_cases hs2 : s2.isEmpty <;> simp [pathOf, hc1, hc2, PV.truthy, hs2]
    | some v1 =>
      obtain ⟨s1, rfl, -⟩ := dictGet_val_ok hvals hc1
      cases hc2 : dictGet (inputsFields fields) "clip_name2" with
      | none =>
        by_cases hs1 : s1.isEmpty <;> simp [pathOf, hc1, hc2, PV.truthy, hs1]
      | some v2 =>
        obtain ⟨s2, rfl, -⟩ := dictGet_val_ok hvals hc2
        by_cases hs1 : s1.isEmpty <;> by_cases hs2 : s2.isEmpty <;>
          simp [pathOf, hc1, hc2, PV.truthy, hs1, hs2]
  cases hcl : ctLookup (getClassType fields) with
  | none =>
    cases hdual : isDualCLIP (getClassType fields) with
    | false => simp
    | true =>
      simp only [if_true, List.nil_append]
      exact hdual_red acc
  | some mtkey =>
    obtain ⟨mt, key⟩ := mtkey
    cases hdg : dictGet (inputsFields fields) key with
    | none =>
      simp only [pathOf, hdg]
      cases hdual : isDualCLIP (getClassType fields) with
      | false => simp
      | true =>
        simp only [if_true, List.nil_append, List.foldl_nil]
        exact hdual_red acc
    | some v =>
      obtain ⟨s, rfl, -⟩ := dictGet_val_ok hvals hdg
      by_cases hs : s.isEmpty
      · simp only [pathOf, hdg, hs, if_true, if_pos]
        cases hdual : isDualCLIP (getClassType fields) with
        | false => simp [hs]
        | true =>
          simp only [if_true, List.nil_append, List.foldl_nil, hs]
          exact hdual_red acc
      · simp only [pathOf, hdg, hs, if_false, if_neg]
        cases hdual : isDualCLIP (getClassType fields) with
        | false => simp [hs]
        | true =>
          simp only [if_true, List.foldl_cons, List.cons_append, List.nil_append, hs]
          exact hdual_red (addNeeded acc (join3 MODELS_PATH mt s))

theorem extractWorkflow_ok {nodes : List (String × PV)}
    (h : promptOK nodes = true) :
    ∀ acc : List String,
      extractWorkflow nodes (.ok acc) =
        .ok (List.foldl addNeeded acc (wfPaths nodes)) := by
  induction nodes with
  | nil => intro acc; rfl
  | cons kv rest ih =>
    intro acc
    obtain ⟨id, node⟩ := kv
    have hok : nodeOK node = true ∧ promptOK rest = true := by
      simpa [promptOK, Bool.and_eq_true] using h
    cases node with
    | vdict fields =>
      rw [show extractWorkflow ((id, .vdict fields) :: rest) (.ok acc) =
            extractWorkflow rest (extractNode acc (.vdict fields)) from rfl,
        extractNode_ok hok.1, ih hok.2]
      rw [show wfPaths ((id, .vdict fields) :: rest) =
            wfNodePaths fields ++ wfPaths rest from rfl,
        List.foldl_append]
    | vstr s => exact absurd hok.1 (by simp [nodeOK])
    | varr a => exact absurd hok.1 (by simp [nodeOK])
    | vother b => exact absurd hok.1 (by simp [nodeOK])

theorem neededModels_ok {nodes : List (String × PV)}
    (h : promptOK nodes = true) :
    neededModels nodes = .ok (List.foldl addNeeded [] (wfPaths nodes)) :=
  extractWorkflow_ok h []

/-! ### The prompt resolver as a `pathRun` -/

theorem promptKeys_run {store : Store} {inpF : List (String × PV)} :
    ∀ (keys : List (String × String)) (fs : FS),
      promptKeys store fs (.vdict inpF) keys =
        ⟨(pathRun store fs (keys.foldr
            (fun mk1 acc => pathOf inpF mk1.1 mk1.2 ++ acc) [])).1,
         (pathRun store fs (keys.foldr
            (fun mk1 acc => pathOf inpF mk1.1 mk1.2 ++ acc) [])).2,
         false⟩ := by
  intro keys
  induction keys with
  | nil => intro fs; rfl
  | cons mk1 rest ih =>
    intro fs
    obtain ⟨mt, key⟩ := mk1
    simp only [promptKeys, inputsGet_dict]
    cases hdg : dictGet inpF key with
    | none =>
      simp only [ih]
      simp [pathOf, hdg]
    | some v =>
      cases v with
      | vstr s =>
        by_cases hs : s.isEmpty
        · simp only [hdg, hs, ih]
          simp [pathOf, hdg, hs]
        · simp only [hdg, hs, ih]
          simp [pathOf, pathRun, stubCheckStep, hdg, hs]
      | vdict d =>
        simp only [hdg, ih]
        simp [pathOf, hdg]
      | varr a =>
        simp only [hdg, ih]
        simp [pathOf, hdg]
      | vother b =>
        simp only [hdg, ih]
        simp [pathOf, hdg]

theorem pathRun_append (store : Store) :
    ∀ (A B : List String) (fs : FS),
      pathRun store fs (A ++ B) =
        ((pathRun store (pathRun store fs A).1 B).1,
         (pathRun store fs A).2 ++ (pathRun store (pathRun store fs A).1 B).2) := by
  intro A
  induction A with
  | nil => intro B fs; simp [pathRun]
  | cons p A ih =>
    intro B fs
    simp only [List.cons_append, pathRun]
    simp only [List.append_eq]
    rw [ih]
    simp [List.append_assoc]

/-- One wellformed prompt node is processed exactly like its extracted
path list. -/
theorem promptNode_ok {store : Store} {fields : List (String × PV)}
    (hn : nodeOK (.vdict fields) = true) (fs : FS) :
    promptNode store fs fields =
      ⟨(pathRun store fs (promptNodePaths fields)).1,
       (pathRun store fs (promptNodePaths fields)).2, false⟩ := by
  have hn' := hn
  simp only [nodeOK, Bool.and_eq_true] at hn'
  obtain ⟨hgi, hvals⟩ := inputs_shape hn'.2
  have hctt := classTypeInTable_of_ok (ct_shape hn'.1)
  unfold promptNode promptNodePaths
  dsimp only
  rw [hgi, hctt]
  cases hcl : ctLookup (getClassType fields) with
  | none =>
    cases hdual : isDualCLIP (getClassType fields) with
    | false => simp [promptKeys_run]
    | true => simp [promptKeys_run]
  | some mtkey =>
    obtain ⟨mt, key⟩ := mtkey
    cases hdual : isDualCLIP (getClassType fields) with
    | false => simp [promptKeys_run]
    | true => simp [promptKeys_run]

/-- A wellformed prompt is processed exactly like the concatenation of
its nodes' extracted path lists; in particular nothing raises. -/
theorem prompt_run_ok {store : Store} {nodes : List (String × PV)}
    (h : promptOK nodes = true) :
    ∀ fs : FS,
      resolve_stubs_for_prompt store nodes fs =
        ⟨(pathRun store fs (promptPaths nodes)).1,
         (pathRun store fs (promptPaths nodes)).2, false⟩ := by
  induction nodes with
  | nil => intro fs; rfl
  | cons kv rest ih =>
    intro fs
    obtain ⟨id, node⟩ := kv
    have hok : nodeOK node = true ∧ promptOK rest = true := by
      simpa [promptOK, Bool.and_eq_true] using h
    cases node with
    | vdict fields =>
      rw [show resolve_stubs_for_prompt store ((id, .vdict fields) :: rest) fs =
            (let r := promptNode store fs fields
             if r.raised then r
             else
               let r' := resolve_stubs_for_prompt store rest r.fs
               ⟨r'.fs, r.trace ++ r'.trace, r'.raised⟩) from rfl]
      rw [promptNode_ok hok.1 fs]
      simp only [Bool.false_eq_true, if_false]
      rw [ih hok.2]
      rw [show promptPaths ((id, .vdict fields) :: rest) =
            promptNodePaths fields ++ promptPaths rest from rfl,
        pathRun_append]
    | vstr s => exact absurd hok.1 (by simp [nodeOK])
    | varr a => exact absurd hok.1 (by simp [nodeOK])
    | vother b => exact absurd hok.1 (by simp [nodeOK])

/-! ### Attempted downloads of a path run -/

theorem attempted_append (a b : List TraceEntry) :
    attempted (a ++ b) = attempted a ++ attempted b := by
  simp [attempted]

theorem download_model_other {store : Store} {fs : FS} {p fid q : String}
    (h1 : q ≠ p) (h2 : q ≠ mk p) :
    (download_model store fs p fid).2 q = fs q := by
  rcases download_model_cases store fs p fid with h | ⟨c, -, h⟩
  · rw [h]
  · rw [h, postFetch_at_other _ _ _ _ h1 h2]

theorem stubCheckStep_other {store : Store} {fs : FS} {p q : String}
    (h1 : q ≠ p) (h2 : q ≠ mk p) :
    (stubCheckStep store fs p).1 q = fs q := by
  unfold stubCheckStep
  split
  · exact download_model_other h1 h2
  · rfl

theorem stubCheckStep_marker_mono {store : Store} {fs : FS} {p q : String}
    (hp : endsStub p = false) (hq : endsStub q = false)
    (h : (((stubCheckStep store fs p).1) (mk q)).isSome = true) :
    (fs (mk q)).isSome = true := by
  by_cases hqp : q = p
  · subst hqp
    unfold stubCheckStep at h
    by_cases hst : is_stub fs q = true
    · rw [if_pos hst] at h
      dsimp only at h
      rcases download_model_cases store fs q
          (pyStrip ((fs (mk q)).getD "")) with hc | ⟨c, -, hc⟩
      · rw [hc] at h; exact h
      · rw [hc, postFetch_at_marker] at h
        exact absurd h (by simp)
    · rw [if_neg hst] at h
      exact h
  · rw [stubCheckStep_other (mk_ne_of_nostub hp) (fun hh => hqp (mk_inj hh))] at h
    exact h

theorem stubCheckStep_marker_eq {store : Store} {fs : FS} {p q : String}
    (hp : endsStub p = false) (hq : endsStub q = false) (hqp : q ≠ p) :
    (stubCheckStep store fs p).1 (mk q) = fs (mk q) :=
  stubCheckStep_other (mk_ne_of_nostub hp) (fun hh => hqp (mk_inj hh))

theorem attempted_stubCheckStep {store : Store} {fs : FS} {p : String} :
    attempted (stubCheckStep store fs p).2 =
      if is_stub fs p = true then [p] else [] := by
  unfold stubCheckStep
  split
  · next h => simp [attempted, h]
  · next h => simp [attempted, h]

/-- A path run attempts a download exactly for the listed paths that are
stubs in the *initial* filesystem (no path ends in ".stub", so no
interference between distinct paths is possible, and markers are never
created, only removed). -/
theorem pathRun_attempted {store : Store} {P : List String}
    (hP : ∀ p ∈ P, endsStub p = false) :
    ∀ (fs : FS) (q : String),
      q ∈ attempted (pathRun store fs P).2 ↔ q ∈ P ∧ is_stub fs q = true := by
  induction P with
  | nil => intro fs q; simp [pathRun, attempted]
  | cons p rest ih =>
    intro fs q
    have hp : endsStub p = false := hP p (List.mem_cons_self p rest)
    have hrest : ∀ r ∈ rest, endsStub r = false :=
      fun r hr => hP r (List.mem_cons_of_mem p hr)
    rw [show pathRun store fs (p :: rest) =
          ((pathRun store (stubCheckStep store fs p).1 rest).1,
           (stubCheckStep store fs p).2 ++
             (pathRun store (stubCheckStep store fs p).1 rest).2) from rfl]
    simp only [attempted_append, List.mem_append]
    constructor
    · rintro (hhd | htl)
      · rw [attempted_stubCheckStep] at hhd
        by_cases hst : is_stub fs p = true
        · rw [if_pos hst] at hhd
          simp at hhd
          subst hhd
          exact ⟨List.mem_cons_self _ _, hst⟩
        · rw [if_neg hst] at hhd
          exact absurd hhd (by simp)
      · obtain ⟨hmem, hstub⟩ := (ih hrest _ q).mp htl
        refine ⟨List.mem_cons_of_mem p hmem, ?_⟩
        by_cases hqp : q = p
        · subst hqp
          exact stubCheckStep_marker_mono hp hp hstub
        · unfold is_stub at hstub ⊢
          rw [stubCheckStep_marker_eq hp (hrest q hmem) hqp] at hstub
          exact hstub
    · rintro ⟨hmem, hstub⟩
      by_cases hqp : q = p
      · subst hqp
        left
        rw [attempted_stubCheckStep, if_pos hstub]
        simp
      · right
        have hmem' : q ∈ rest := by
          rcases List.mem_cons.mp hmem with h | h
          · exact absurd h hqp
          · exact h
        apply (ih hrest _ q).mpr
        refine ⟨hmem', ?_⟩
        unfold is_stub at hstub ⊢
        rw [stubCheckStep_marker_eq hp (hrest q hmem') hqp]
        exact hstub

theorem resolveOne_stub {store : Store} {fs : FS} {p : String}
    (h : is_stub fs p = true) :
    resolveOne store fs p = stubCheckStep store fs p := by
  simp [resolveOne, stubCheckStep, h]

theorem resolveOne_nostub {s : Store} {fs : FS} {p : String}
    (h : is_stub fs p = false) :
    (resolveOne s fs p).1 = fs ∧ attempted (resolveOne s fs p).2 = [] := by
  unfold resolveOne
  rw [h]
  by_cases he : (fs p).isSome = true <;> simp [he, attempted]

/-- The workflow resolution loop behaves exactly like a path run as far
as the filesystem and the attempted downloads are concerned (the only
difference is log-only classification entries). -/
theorem resolveList_eq_pathRun {store : Store} :
    ∀ (P : List String) (fs : FS),
      (resolveList store fs P).1 = (pathRun store fs P).1 ∧
      attempted (resolveList store fs P).2 = attempted (pathRun store fs P).2 := by
  intro P
  induction P with
  | nil => intro fs; exact ⟨rfl, rfl⟩
  | cons p rest ih =>
    intro fs
    rw [show resolveList store fs (p :: rest) =
          ((resolveList store (resolveOne store fs p).1 rest).1,
           (resolveOne store fs p).2 ++
             (resolveList store (resolveOne store fs p).1 rest).2) from rfl,
      show pathRun store fs (p :: rest) =
          ((pathRun store (stubCheckStep store fs p).1 rest).1,
           (stubCheckStep store fs p).2 ++
             (pathRun store (stubCheckStep store fs p).1 rest).2) from rfl]
    by_cases hst : is_stub fs p = true
    · rw [resolveOne_stub hst]
      exact ⟨(ih _).1, by rw [attempted_append, attempted_append, (ih _).2]⟩
    · have hst' : is_stub fs p = false := by simpa using hst
      obtain ⟨h1, h2⟩ := resolveOne_nostub (s := store) hst'
      have h3 : (stubCheckStep store fs p).1 = fs := by
        unfold stubCheckStep
        rw [hst']
        simp
      have h4 : attempted (stubCheckStep store fs p).2 = [] := by
        rw [attempted_stubCheckStep, hst']
        simp
      rw [h1, h3]
      refine ⟨(ih _).1, ?_⟩
      rw [attempted_append, attempted_append, h2, h4, (ih _).2]

/-! ### Path-set agreement between the two extractions -/

theorem addNeeded_mem (l : List String) (p q : String) :
    q ∈ addNeeded l p ↔ q ∈ l ∨ q = p := by
  by_cases hin : p ∈ l
  · simp only [addNeeded, if_pos hin]
    exact ⟨Or.inl, fun h => h.elim id (fun hq => hq ▸ hin)⟩
  · simp [addNeeded, hin]

theorem foldl_addNeeded_mem :
    ∀ (P : List String) (acc : List String) (q : String),
      q ∈ P.foldl addNeeded acc ↔ q ∈ acc ∨ q ∈ P := by
  intro P
  induction P with
  | nil => intro acc q; simp
  | cons p rest ih =>
    intro acc q
    rw [List.foldl_cons, ih, addNeeded_mem]
    simp [or_assoc]

theorem isDualCLIP_lookup {ct : PV} (h : isDualCLIP ct = true) :
    ctLookup ct = some ("clip", "clip_name1") := by
  cases ct with
  | vstr s =>
    have hs : s = "DualCLIPLoader" := by simpa [isDualCLIP] using h
    subst hs
    rfl
  | vdict d => exact absurd h (by simp [isDualCLIP])
  | varr a => exact absurd h (by simp [isDualCLIP])
  | vother b => exact absurd h (by simp [isDualCLIP])

theorem wfNode_mem (fields : List (String × PV)) (q : String) :
    q ∈ wfNodePaths fields ↔ q ∈ promptNodePaths fields := by
  unfold wfNodePaths promptNodePaths
  by_cases hdual : isDualCLIP (getClassType fields) = true
  · rw [isDualCLIP_lookup hdual]
    simp only [hdual, if_true, List.mem_append]
    tauto
  · have hd : isDualCLIP (getClassType fields) = false := by simpa using hdual
    simp [hd]

theorem wfPaths_mem (nodes : List (String × PV)) (q : String) :
    q ∈ wfPaths nodes ↔ q ∈ promptPaths nodes := by
  induction nodes with
  | nil => simp [wfPaths, promptPaths]
  | cons kv rest ih =>
    obtain ⟨id, node⟩ := kv
    cases node with
    | vdict fields =>
      rw [show wfPaths ((id, PV.vdict fields) :: rest) =
            wfNodePaths fields ++ wfPaths rest from rfl,
        show promptPaths ((id, PV.vdict fields) :: rest) =
            promptNodePaths fields ++ promptPaths rest from rfl]
      simp only [List.mem_append, wfNode_mem, ih]
    | vstr s => simpa [wfPaths, promptPaths] using ih
    | varr a => simpa [wfPaths, promptPaths] using ih
    | vother b => simpa [wfPaths, promptPaths] using ih

/-! ### No extracted path ends in ".stub" under wellformedness -/

theorem ctLookup_dir {ct : PV} {mt key : String}
    (h : ctLookup ct = some (mt, key)) :
    lastIs '/' (joinPath MODELS_PATH mt) = false := by
  cases ct with
  | vstr s =>
    unfold ctLookup modelNodeLookup at h
    dsimp only at h
    cases hf : MODEL_NODES.find? (·.1 == s) with
    | none => rw [hf] at h; exact absurd h (by simp)
    | some t =>
      rw [hf] at h
      have hmem : t ∈ MODEL_NODES := List.mem_of_find?_eq_some hf
      have ht : t.2 = (mt, key) := by simpa using h
      have := modelNode_dir_ok t hmem
      rw [ht] at this
      exact this
  | vdict d => exact absurd h (by simp [ctLookup])
  | varr a => exact absurd h (by simp [ctLookup])
  | vother b => exact absurd h (by simp [ctLookup])

theorem pathOf_nostub {inpF : List (String × PV)} {mt key : String}
    (hvals : ∀ kv ∈ inpF, inputValOK kv.2 = true)
    (hdir : lastIs '/' (joinPath MODELS_PATH mt) = false) :
    ∀ q ∈ pathOf inpF mt key, endsStub q = false := by
  intro q hq
  unfold pathOf at hq
  cases hdg : dictGet inpF key with
  | none => rw [hdg] at hq; exact absurd hq (by simp)
  | some v =>
    rw [hdg] at hq
    obtain ⟨s, rfl, hse⟩ := dictGet_val_ok hvals hdg
    dsimp only at hq
    by_cases hs : s.isEmpty
    · rw [if_pos hs] at hq
      exact absurd hq (by simp)
    · rw [if_neg hs] at hq
      have : q = join3 MODELS_PATH mt s := by simpa using hq
      rw [this]
      exact join3_nostub hdir hse

theorem wfNodePaths_nostub {fields : List (String × PV)}
    (hn : nodeOK (.vdict fields) = true) :
    ∀ q ∈ wfNodePaths fields, endsStub q = false := by
  have hn' := hn
  simp only [nodeOK, Bool.and_eq_true] at hn'
  obtain ⟨-, hvals⟩ := inputs_shape hn'.2
  intro q hq
  unfold wfNodePaths at hq
  rw [List.mem_append] at hq
  rcases hq with hq | hq
  · cases hcl : ctLookup (getClassType fields) with
    | none => rw [hcl] at hq; exact absurd hq (by simp)
    | some mtkey =>
      obtain ⟨mt, key⟩ := mtkey
      rw [hcl] at hq
      exact pathOf_nostub hvals (ctLookup_dir hcl) q hq
  · by_cases hdual : isDualCLIP (getClassType fields) = true
    · rw [if_pos hdual, List.mem_append] at hq
      rcases hq with hq | hq
      · exact pathOf_nostub hvals clip_dir_ok q hq
      · exact pathOf_nostub hvals clip_dir_ok q hq
    · rw [if_neg hdual] at hq
      exact absurd hq (by simp)

theorem wfPaths_nostub {nodes : List (String × PV)}
    (h : promptOK nodes = true) :
    ∀ q ∈ wfPaths nodes, endsStub q = false := by
  induction nodes with
  | nil => simp [wfPaths]
  | cons kv rest ih =>
    obtain ⟨id, node⟩ := kv
    have hok : nodeOK node = true ∧ promptOK rest = true := by
      simpa [promptOK, Bool.and_eq_true] using h
    intro q hq
    cases node with
    | vdict fields =>
      rw [show wfPaths ((id, PV.vdict fields) :: rest) =
            wfNodePaths fields ++ wfPaths rest from rfl,
        List.mem_append] at hq
      rcases hq with hq | hq
      · exact wfNodePaths_nostub hok.1 q hq
      · exact ih hok.2 q hq
    | vstr s => exact absurd hok.1 (by simp [nodeOK])
    | varr a => exact absurd hok.1 (by simp [nodeOK])
    | vother b => exact absurd hok.1 (by simp [nodeOK])

/-- Combined agreement lemma: under wellformedness the two resolvers
attempt downloads for the same set of paths. -/
theorem resolvers_attempt_same (store : Store) (nodes : List (String × PV)) (fs : FS)
    (hWF : promptOK nodes = true) (q : String) :
    (q ∈ attempted (resolve_stubs_for_workflow store (.ok nodes) fs).trace ↔
     q ∈ attempted (resolve_stubs_for_prompt store nodes fs).trace) := by
  have hw : (resolve_stubs_for_workflow store (.ok nodes) fs).trace =
      (resolveList store fs (List.foldl addNeeded [] (wfPaths nodes))).2 := by
    unfold resolve_stubs_for_workflow
    dsimp only
    rw [neededModels_ok hWF]
  have hNstub : ∀ p ∈ List.foldl addNeeded [] (wfPaths nodes), endsStub p = false := by
    intro p hp
    rcases (foldl_addNeeded_mem _ _ p).mp hp with h | h
    · exact absurd h (List.not_mem_nil p)
    · exact wfPaths_nostub hWF p h
  have hPstub : ∀ p ∈ promptPaths nodes, endsStub p = false := by
    intro p hp
    exact wfPaths_nostub hWF p ((wfPaths_mem nodes p).mpr hp)
  have hp : (resolve_stubs_for_prompt store nodes fs).trace =
      (pathRun store fs (promptPaths nodes)).2 := by
    rw [prompt_run_ok hWF fs]
  rw [hw, hp,
    (resolveList_eq_pathRun (List.foldl addNeeded [] (wfPaths nodes)) fs).2,
    pathRun_attempted hNstub fs q, pathRun_attempted hPstub fs q,
    foldl_addNeeded_mem]
  simp [wfPaths_mem]

/-- Skipping non-dict nodes: the prompt resolver treats them exactly as
if they were absent. -/
theorem prompt_filter_eq (store : Store) (nodes : List (String × PV)) :
    ∀ fs : FS,
      resolve_stubs_for_prompt store nodes fs =
        resolve_stubs_for_prompt store
          (nodes.filter (fun kv => kv.2.isDict)) fs := by
  induction nodes with
  | nil => intro fs; rfl
  | cons kv rest ih =>
    intro fs
    obtain ⟨id, node⟩ := kv
    cases node with
    | vdict fields =>
      have hf : ((id, PV.vdict fields) :: rest).filter (fun kv => kv.2.isDict) =
          (id, PV.vdict fields) :: rest.filter (fun kv => kv.2.isDict) := by
        simp [List.filter_cons, PV.isDict]
      rw [hf]
      rw [show ∀ r : List (String × PV),
            resolve_stubs_for_prompt store ((id, .vdict fields) :: r) fs =
              (let rr := promptNode store fs fields
               if rr.raised then rr
               else
                 let r' := resolve_stubs_for_prompt store r rr.fs
                 ⟨r'.fs, rr.trace ++ r'.trace, r'.raised⟩) from fun r => rfl]
      dsimp only
      rw [ih]
      rfl
    | vstr s =>
      have hf : ((id, PV.vstr s) :: rest).filter (fun kv => kv.2.isDict) =
          rest.filter (fun kv => kv.2.isDict) := by
        simp [List.filter_cons, PV.isDict]
      rw [hf, show resolve_stubs_for_prompt store ((id, .vstr s) :: rest) fs =
            resolve_stubs_for_prompt store rest fs from rfl, ih]
    | varr a =>
      have hf : ((id, PV.varr a) :: rest).filter (fun kv => kv.2.isDict) =
          rest.filter (fun kv => kv.2.isDict) := by
        simp [List.filter_cons, PV.isDict]
      rw [hf, show resolve_stubs_for_prompt store ((id, .varr a) :: rest) fs =
            resolve_stubs_for_prompt store rest fs from rfl, ih]
    | vother b =>
      have hf : ((id, PV.vother b) :: rest).filter (fun kv => kv.2.isDict) =
          rest.filter (fun kv => kv.2.isDict) := by
        simp [List.filter_cons, PV.isDict]
      rw [hf, show resolve_stubs_for_prompt store ((id, .vother b) :: rest) fs =
            resolve_stubs_for_prompt store rest fs from rfl, ih]

/-- Classification of a marker-free path by the workflow resolution
loop: existence alone decides between "already available" and
"not found"; size is not consulted, and nothing is written. -/
theorem resolveOne_nomarker (store : Store) (fs : FS) (p : String)
    (h : fs (mk p) = none) :
    resolveOne store fs p =
      (fs, [if (fs p).isSome = true then TraceEntry.avail p
            else TraceEntry.missing p]) := by
  unfold resolveOne is_stub
  rw [h]
  by_cases he : (fs p).isSome = true
  · simp [he]
  · simp [he]

/-! ### Successful resolution of a stub, and category computation -/

theorem download_model_stub_success {store : Store} {fs : FS} {p fid c c0 : String}
    (hp : fs p = some c0) (hlen : c0.length = 0) (hm : (fs (mk p)).isSome = true)
    (hfetch : store fid = some c) :
    download_model store fs p fid = (true, (fs.set p (some c)).set (mk p) none) := by
  unfold download_model
  have hsize : (if (fs p).isSome = true then fs.size p else 0) = 0 := by
    rw [if_pos (by rw [hp]; rfl)]
    unfold FS.size
    rw [hp]
    simpa using hlen
  have h1 : (fs.set p (some c)) (mk p) = fs (mk p) :=
    FS.set_other _ _ _ _ (fun h => ne_mk_self p h.symm)
  simp [hsize, hfetch, h1, hm]

theorem splitSlashAux_sep (pre t : List Char) :
    ∀ acc, '/' ∉ pre →
      splitSlashAux acc (pre ++ '/' :: t) = ⟨acc ++ pre⟩ :: splitSlashAux [] t := by
  induction pre with
  | nil => intro acc _; simp [splitSlashAux]
  | cons c cs ih =>
    intro acc h
    have hc : ¬(c = '/') := fun hh => h (hh ▸ List.mem_cons_self c cs)
    rw [show (c :: cs) ++ '/' :: t = c :: (cs ++ '/' :: t) from rfl,
      show splitSlashAux acc (c :: (cs ++ '/' :: t)) =
          splitSlashAux (acc ++ [c]) (cs ++ '/' :: t) from by
        simp [splitSlashAux, hc],
      ih (acc ++ [c]) (fun hm => h (List.mem_cons_of_mem c hm))]
    simp [List.append_assoc]

theorem splitSlash_sep (a x : String) (h : '/' ∉ a.data) :
    splitSlash (a ++ "/" ++ x) = a :: splitSlash x := by
  unfold splitSlash
  have hd : (a ++ "/" ++ x).data = a.data ++ '/' :: x.data := by
    simp [String.data_append]
  rw [hd, splitSlashAux_sep a.data x.data [] h]
  rw [show ({ data := [] ++ a.data } : String) = a from by cases a; simp]

/-- The category computed for `a ++ "/" ++ x` depends only on the
top-level folder name `a`. -/
theorem resolveCategory_concat (a x : String) (h : '/' ∉ a.data) :
    resolveCategory (a ++ "/" ++ x) =
      (if applyAlias (pyLower a) ∈ MODEL_SUBDIRS
       then some (applyAlias (pyLower a)) else none) := by
  unfold resolveCategory catalogTarget
  obtain ⟨y, t, hyt⟩ := List.exists_cons_of_ne_nil (splitSlashAux_ne_nil x.data [])
  rw [splitSlash_sep a x h]
  rw [show splitSlash x = splitSlashAux [] x.data from rfl, hyt]
  dsimp only
  by_cases hmem : applyAlias (pyLower a) ∈ MODEL_SUBDIRS
  · rw [if_pos hmem, if_pos hmem]
    rfl
  · rw [if_neg hmem, if_neg hmem]
    rfl

/-- C1 (counterexample): the claim "the state nonzero-length file with
marker present never occurs" is false as stated.  Starting from an empty
filesystem: materialize a catalog with `checkpoints/foo`, resolve it
(`foo` becomes a real nonzero file, marker removed), then materialize a
catalog containing a remote file literally named `checkpoints/foo.stub`.
The second materialization creates a zero-byte file at
`/app/models/checkpoints/foo.stub` — which is exactly `foo`'s marker
path — so `foo` is now a nonzero-length file whose marker is present,
the forbidden fourth state. -/
theorem C1_counterexample :
    applyOps c1store FS.empty c1ops "/app/models/checkpoints/foo" = some "DATA" ∧
    (applyOps c1store FS.empty c1ops
        (mk "/app/models/checkpoints/foo")).isSome = true ∧
    ForbiddenSlot (applyOps c1store FS.empty c1ops) "/app/models/checkpoints/foo" := by
  refine ⟨by decide, by decide, ⟨"DATA", by decide, by decide, by decide⟩⟩

/-- C1 (amended): provided no catalog relative path, downloaded local
path or workflow-extracted path ends in the marker suffix ".stub", and
every store fetch delivers nonzero content, then after any sequence of
`create_stubs`, `download_model` and `resolve_stubs_for_workflow`
operations starting from the empty filesystem, every local model path
(any path not itself ending in ".stub") is in exactly one of the three
states {no file, zero-length file with marker, nonzero-length file with
no marker}, and the state "nonzero-length file with marker present"
never occurs. -/
theorem C1_stub_real_exclusive {store : Store} {ops : List LOp} {p : String}
    (hstore : StoreOK store) (hops : ∀ op ∈ ops, OpOK op)
    (hp : endsStub p = false) :
    ExactlyOneSlot (applyOps store FS.empty ops) p ∧
      ¬ ForbiddenSlot (applyOps store FS.empty ops) p :=
  Inv_slot (applyOps_preserves_inv hstore Inv_empty hops) hp

/-- Witness for C1: a concrete materialize-then-download run. -/
theorem C1_stub_real_exclusive_witness :
    ExactlyOneSlot
      (applyOps c1store FS.empty
        [.mat [("checkpoints/foo", "id1")],
         .dl "/app/models/checkpoints/foo" "id1"])
      "/app/models/checkpoints/foo" ∧
    ¬ ForbiddenSlot
      (applyOps c1store FS.empty
        [.mat [("checkpoints/foo", "id1")],
         .dl "/app/models/checkpoints/foo" "id1"])
      "/app/models/checkpoints/foo" := by
  apply C1_stub_real_exclusive
  · intro h c hc
    unfold c1store at hc
    by_cases hh : h = "id1"
    · rw [if_pos hh] at hc
      cases Option.some.inj hc
      decide
    · rw [if_neg hh] at hc
      exact absurd hc (by simp)
  · intro op hop
    fin_cases hop
    · show ∀ e ∈ [("checkpoints/foo", "id1")], endsStub e.1 = false
      decide
    · show endsStub "/app/models/checkpoints/foo" = false
      decide
  · decide

/-- C2 (counterexample): a path that exists with zero size and no
marker is reported by the resolution loop as already available — not as
missing — because the `elif` on line 225 tests only `os.path.exists`,
never the size.  The claim says it is reported as missing. -/
theorem C2_counterexample :
    (FS.empty.set "/app/models/checkpoints/m.safetensors" (some ""))
        "/app/models/checkpoints/m.safetensors" = some "" ∧
    (FS.empty.set "/app/models/checkpoints/m.safetensors" (some ""))
        (mk "/app/models/checkpoints/m.safetensors") = none ∧
    resolveOne (fun _ => none)
        (FS.empty.set "/app/models/checkpoints/m.safetensors" (some ""))
        "/app/models/checkpoints/m.safetensors" =
      (FS.empty.set "/app/models/checkpoints/m.safetensors" (some ""),
       [TraceEntry.avail "/app/models/checkpoints/m.safetensors"]) := by
  refine ⟨by decide, by decide, ?_⟩
  rw [resolveOne_nomarker _ _ _ (by decide)]
  rw [if_pos (by decide)]

/-- C2 (amended): for every requested path with no sidecar marker, the
loop takes no action and classifies by existence alone: an existing path
(of any size, including zero) is reported as already available and a
non-existing path as missing. -/
theorem C2_classification (store : Store) (fs : FS) (p : String)
    (h : fs (mk p) = none) :
    resolveOne store fs p =
      (fs, [if (fs p).isSome = true then TraceEntry.avail p
            else TraceEntry.missing p]) :=
  resolveOne_nomarker store fs p h

/-- Witness for C2: a missing path is reported as missing. -/
theorem C2_classification_witness :
    resolveOne (fun _ => none) FS.empty "/app/models/checkpoints/m.safetensors" =
      (FS.empty, [TraceEntry.missing "/app/models/checkpoints/m.safetensors"]) := by
  rw [C2_classification (fun _ => none) FS.empty
    "/app/models/checkpoints/m.safetensors" (by decide)]
  rw [if_neg (by decide)]

/-- C3 (confirmed): if the path is a stub (zero-length file, marker
present) and the store's fetch of the handle fails, `download_model`
returns `False` and leaves the entire filesystem — the zero-length file
and the marker with its content — unchanged. -/
theorem C3_failure_nondestructive {store : Store} {fs : FS} {p fid c m : String}
    (hc : fs p = some c) (hlen : c.length = 0) (hm : fs (mk p) = some m)
    (hfail : store fid = none) :
    download_model store fs p fid = (false, fs) := by
  unfold download_model
  have hsize : (if (fs p).isSome = true then fs.size p else 0) = 0 := by
    rw [if_pos (by rw [hc]; rfl)]
    unfold FS.size
    rw [hc]
    simpa using hlen
  simp [hsize, hfail]

/-- Witness for C3: a concrete failed fetch on a stub. -/
theorem C3_failure_nondestructive_witness :
    download_model (fun _ => none)
        ((FS.empty.set "/app/models/vae/v.safetensors" (some "")).set
          (mk "/app/models/vae/v.safetensors") (some "id9"))
        "/app/models/vae/v.safetensors" "id9" =
      (false,
       (FS.empty.set "/app/models/vae/v.safetensors" (some "")).set
         (mk "/app/models/vae/v.safetensors") (some "id9")) :=
  C3_failure_nondestructive (c := "") (m := "id9") (by decide) (by decide)
    (by decide) rfl

/-- C4 (counterexample): `create_stubs` is not idempotent for every
catalog.  With a pre-existing real `checkpoints/a` and a catalog entry
named `checkpoints/a.stub`, the first run skips `a` (real, unmarked)
but stubs `a.stub` — thereby creating `a`'s marker path — so the second
run no longer skips `a`: it truncates the real file to zero bytes and
records an extra `stub_map` assignment.  The two runs produce different
filesystems and different `(stub, marker)` maps. -/
theorem C4_counterexample :
    (create_stubs c4cat c4fs).1 "/app/models/checkpoints/a" = some "DATA" ∧
    (create_stubs c4cat (create_stubs c4cat c4fs).1).1
        "/app/models/checkpoints/a" = some "" ∧
    (create_stubs c4cat (create_stubs c4cat c4fs).1).2.1 ≠
      (create_stubs c4cat c4fs).2.1 := by
  refine ⟨by decide, by decide, by decide⟩

/-- C4 (amended): provided no catalog relative path ends in the marker
suffix ".stub", running `create_stubs` twice over the same catalog from
any starting filesystem yields exactly the same result as running it
once: the second run leaves the filesystem unchanged and performs the
identical `stub_map` assignments (hence the identical `(stub, marker)`
pairs with identical marker contents, and no file the first run did not
already produce). -/
theorem C4_idempotent {C : List (String × String)} {fs : FS}
    (hC : ∀ e ∈ C, endsStub e.1 = false) :
    create_stubs C (create_stubs C fs).1 = create_stubs C fs := by
  unfold create_stubs
  obtain ⟨h1, h2⟩ := stub_idem hC fs
  rw [h1, h2]

/-- Witness for C4: a concrete one-entry catalog. -/
theorem C4_idempotent_witness :
    create_stubs [("checkpoints/w.safetensors", "idw")]
        (create_stubs [("checkpoints/w.safetensors", "idw")] FS.empty).1 =
      create_stubs [("checkpoints/w.safetensors", "idw")] FS.empty :=
  C4_idempotent (by decide)

/-- C5 (confirmed): a path that is currently a stub (zero-length file
plus marker) whose stripped handle the store can serve with nonzero
content is, after one resolution step, a nonzero-length file with the
marker absent, and the download is reported as successful. -/
theorem C5_resolution_convergence {store : Store} {fs : FS} {p z m c : String}
    (hp : fs p = some z) (hlen : z.length = 0) (hm : fs (mk p) = some m)
    (hfetch : store (pyStrip m) = some c) (hc : c ≠ "") :
    (resolveOne store fs p).1 p = some c ∧
    0 < (((resolveOne store fs p).1 p).getD "").length ∧
    (resolveOne store fs p).1 (mk p) = none ∧
    (resolveOne store fs p).2 = [.dl p (pyStrip m) true] := by
  have hstub : is_stub fs p = true := by
    unfold is_stub
    rw [hm]
    rfl
  have hfid : pyStrip ((fs (mk p)).getD "") = pyStrip m := by rw [hm]; rfl
  have hdl := download_model_stub_success hp hlen (by rw [hm]; rfl) hfetch
  have hres : resolveOne store fs p =
      ((fs.set p (some c)).set (mk p) none, [.dl p (pyStrip m) true]) := by
    unfold resolveOne
    rw [hfid]
    simp only [hstub, if_true, hdl]
  rw [hres]
  refine ⟨?_, ?_, ?_, rfl⟩
  · show ((fs.set p (some c)).set (mk p) none) p = some c
    rw [FS.set_other _ _ _ _ (ne_mk_self p), FS.set_same]
  · show 0 < ((((fs.set p (some c)).set (mk p) none) p).getD "").length
    rw [FS.set_other _ _ _ _ (ne_mk_self p), FS.set_same]
    simpa using str_len_pos hc
  · show ((fs.set p (some c)).set (mk p) none) (mk p) = none
    rw [FS.set_same]

/-- Witness for C5: a concrete stub resolved with nonzero content. -/
theorem C5_resolution_convergence_witness :
    ((resolveOne (fun h => if h = "idv" then some "WEIGHTS" else none)
        ((FS.empty.set "/app/models/vae/v.safetensors" (some "")).set
          (mk "/app/models/vae/v.safetensors") (some "idv"))
        "/app/models/vae/v.safetensors").1 "/app/models/vae/v.safetensors" =
      some "WEIGHTS") ∧
    (0 < (((resolveOne (fun h => if h = "idv" then some "WEIGHTS" else none)
        ((FS.empty.set "/app/models/vae/v.safetensors" (some "")).set
          (mk "/app/models/vae/v.safetensors") (some "idv"))
        "/app/models/vae/v.safetensors").1 "/app/models/vae/v.safetensors").getD
          "").length) ∧
    ((resolveOne (fun h => if h = "idv" then some "WEIGHTS" else none)
        ((FS.empty.set "/app/models/vae/v.safetensors" (some "")).set
          (mk "/app/models/vae/v.safetensors") (some "idv"))
        "/app/models/vae/v.safetensors").1 (mk "/app/models/vae/v.safetensors") =
      none) ∧
    ((resolveOne (fun h => if h = "idv" then some "WEIGHTS" else none)
        ((FS.empty.set "/app/models/vae/v.safetensors" (some "")).set
          (mk "/app/models/vae/v.safetensors") (some "idv"))
        "/app/models/vae/v.safetensors").2 =
      [.dl "/app/models/vae/v.safetensors" (pyStrip "idv") true]) :=
  C5_resolution_convergence (z := "") (m := "idv") (c := "WEIGHTS")
    (by decide) (by decide) (by decide) (by decide) (by decide)

/-- C6 (confirmed): the dual-CLIP workflow extracts exactly the two
clip paths — both input keys contribute, and the two paths are
distinct. -/
theorem C6_dual_clip_extraction :
    neededModels
      [("5", .vdict [("class_type", .vstr "DualCLIPLoader"),
                     ("inputs", .vdict [("clip_name1", .vstr "a.safetensors"),
                                        ("clip_name2", .vstr "b.safetensors")])])] =
      .ok ["/app/models/clip/a.safetensors", "/app/models/clip/b.safetensors"] ∧
    ("/app/models/clip/a.safetensors" : String) ≠ "/app/models/clip/b.safetensors" :=
  ⟨rfl, by decide⟩

/-- C7 (confirmed): the aliases map `text_encoders` to the `clip`
category and `diffusion_models` to the `unet` category, for every
filename — hence the same local directory, which is determined by the
category. -/
theorem C7_alias_equivalence (x : String) :
    resolveCategory ("text_encoders/" ++ x) = resolveCategory ("clip/" ++ x) ∧
    resolveCategory ("text_encoders/" ++ x) = some "clip" ∧
    resolveCategory ("diffusion_models/" ++ x) = resolveCategory ("unet/" ++ x) ∧
    resolveCategory ("diffusion_models/" ++ x) = some "unet" := by
  have e1 : ("text_encoders/" : String) ++ x = "text_encoders" ++ "/" ++ x := by
    rw [show ("text_encoders/" : String) = "text_encoders" ++ "/" from by decide]
  have e2 : ("clip/" : String) ++ x = "clip" ++ "/" ++ x := by
    rw [show ("clip/" : String) = "clip" ++ "/" from by decide]
  have e3 : ("diffusion_models/" : String) ++ x = "diffusion_models" ++ "/" ++ x := by
    rw [show ("diffusion_models/" : String) = "diffusion_models" ++ "/" from by decide]
  have e4 : ("unet/" : String) ++ x = "unet" ++ "/" ++ x := by
    rw [show ("unet/" : String) = "unet" ++ "/" from by decide]
  rw [e1, e2, e3, e4,
    resolveCategory_concat "text_encoders" x (by decide),
    resolveCategory_concat "clip" x (by decide),
    resolveCategory_concat "diffusion_models" x (by decide),
    resolveCategory_concat "unet" x (by decide)]
  refine ⟨by decide, by decide, by decide, by decide⟩

/-- C8 (confirmed): a transport error during the folder scan yields the
empty mapping (instead of propagating), and materializing the empty
mapping leaves the filesystem untouched, creates zero stubs and returns
an empty stub map — boot continues with an empty catalog. -/
theorem C8_scanner_fails_open (folder_id : String) (fs : FS) :
    scan_gdrive_for_models folder_id none = [] ∧
    create_stubs (scan_gdrive_for_models folder_id none) fs = (fs, [], 0) :=
  ⟨rfl, rfl⟩

/-- C9 (counterexample): the two resolvers do not attempt the same path
set on every spec with dict nodes and string inputs.  With a model named
`a.stub`, resolving it creates the file at `/app/models/clip/a.stub` —
which is `a`'s marker path.  The workflow resolver deduplicates first
and classifies `a` before that happens (not attempted); the prompt
resolver revisits the duplicate node `a` afterwards, now sees a marker,
and attempts a download of `a`. -/
theorem C9_counterexample :
    stringInputNodes c9nodes = true ∧
    attempted (resolve_stubs_for_workflow c9store (.ok c9nodes) c9fs).trace =
      ["/app/models/clip/a.stub"] ∧
    attempted (resolve_stubs_for_prompt c9store c9nodes c9fs).trace =
      ["/app/models/clip/a.stub", "/app/models/clip/a"] ∧
    ("/app/models/clip/a" ∈
      attempted (resolve_stubs_for_prompt c9store c9nodes c9fs).trace) ∧
    ("/app/models/clip/a" ∉
      attempted (resolve_stubs_for_workflow c9store (.ok c9nodes) c9fs).trace) := by
  refine ⟨by decide, by decide, by decide, by decide, by decide⟩

/-- C9 (amended): for every job spec whose node values are all dicts
with hashable class types and string-valued inputs, none of whose model
names end in the marker suffix ".stub", the set of local model paths
whose download is attempted by `resolve_stubs_for_workflow` equals the
set attempted by `resolve_stubs_for_prompt` on the same spec, for any
starting filesystem and store. -/
theorem C9_resolvers_agree {store : Store} {nodes : List (String × PV)} {fs : FS}
    (hWF : promptOK nodes = true) (q : String) :
    (q ∈ attempted (resolve_stubs_for_workflow store (.ok nodes) fs).trace ↔
     q ∈ attempted (resolve_stubs_for_prompt store nodes fs).trace) :=
  resolvers_attempt_same store nodes fs hWF q

/-- Witness for C9: a concrete dual-node spec. -/
theorem C9_resolvers_agree_witness :
    ("/app/models/clip/c1.safetensors" ∈
      attempted (resolve_stubs_for_workflow c9store
        (.ok [("7", .vdict [("class_type", .vstr "DualCLIPLoader"),
                            ("inputs", .vdict
                              [("clip_name1", .vstr "c1.safetensors"),
                               ("clip_name2", .vstr "c2.safetensors")])])])
        c9fs).trace ↔
     "/app/models/clip/c1.safetensors" ∈
      attempted (resolve_stubs_for_prompt c9store
        [("7", .vdict [("class_type", .vstr "DualCLIPLoader"),
                       ("inputs", .vdict
                         [("clip_name1", .vstr "c1.safetensors"),
                          ("clip_name2", .vstr "c2.safetensors")])])]
        c9fs).trace) :=
  C9_resolvers_agree (by decide) "/app/models/clip/c1.safetensors"

/-- C10 (confirmed): the prompt resolver skips non-dict node values
(the `isinstance` guard on line 288) and processes the remaining nodes
exactly as if the malformed entries were absent: its result on any
prompt equals its result on the prompt with the non-dict entries
filtered out. -/
theorem C10_prompt_skips_nondicts (store : Store) (nodes : List (String × PV))
    (fs : FS) :
    resolve_stubs_for_prompt store nodes fs =
      resolve_stubs_for_prompt store
        (nodes.filter (fun kv => kv.2.isDict)) fs :=
  prompt_filter_eq store nodes fs

end VastAI
